import Mathlib

/-!
Verification development for the logsuck ingestion and search core.

The Go sources embedded here are
`internal/events/EventRepositorySqlite.go` (the SQLite-backed event store:
`AddBatch`, `FilterStream`, `GetByIds`) and the search / publisher files
(`FilterEventsStream`, `shouldIncludeEvent`, `BatchedRepositoryPublisher`,
`PublishEvent`).

Modelling conventions:
* Go `time.Time` values are modelled as `Int` (only ordering and equality of
  timestamps matter to the embedded code).
* Go maps that the code iterates over (`map[string]struct{}`,
  `map[string][]string`, compiled pattern maps) are modelled as lists in a
  definite iteration order; Go randomizes that order, so theorems quantify
  over the order where it matters.
* Compiled regular expressions (`filtering.CompileKeys` / `CompileMap`,
  which live outside the embedded files) are modelled as opaque boolean
  matchers `String → Bool`.
* Field extraction (`parser.ExtractFields`, outside the embedded files) is a
  parameter `String → Fields`.
* SQLite itself is external; its documented behaviour is modelled directly:
  row ids are assigned as one more than the current maximum (starting at 1),
  `SELECT MAX(id)` on an empty table yields NULL (`none`), the
  `UNIQUE(source, timestamp, offset)` constraint reports a violation exactly
  when the triple is already present, and `ORDER BY timestamp DESC, id DESC
  LIMIT n OFFSET k` pages a totally ordered result set.  The FTS `MATCH`
  evaluation is abstracted as a row predicate parameter; the empty match
  expression produced by an unconstrained call matches no rows
  (`matchEmpty`), and an empty `IN ()` list is accepted and matches
  nothing — both modelled from SQLite's verified behaviour.
-/

namespace Logsuck

/-- An as-yet-unpersisted observation (Go struct `RawEvent`). -/
structure RawEvent where
  raw : String
  source : String
  offset : Int
deriving Repr, DecidableEq

/-- A raw event enriched with host and timestamp (Go struct `Event`). -/
structure Event where
  raw : String
  host : String
  source : String
  offset : Int
  timestamp : Int
deriving Repr, DecidableEq

/-- An event as returned from the store (Go struct `EventWithId`). -/
structure EventWithId where
  id : Int
  source : String
  timestamp : Int
  raw : String
deriving Repr, DecidableEq

/-- The caller-visible event with its extracted fields
(Go struct `EventWithExtractedFields`); fields are an association list in
iteration order. -/
structure EventWithExtractedFields where
  id : Int
  raw : String
  timestamp : Int
  source : String
  fields : List (String × String)
deriving Repr, DecidableEq

/-- Extracted fields: an association list standing for Go's
`map[string]string`. -/
def Fields : Type := List (String × String)

instance : DecidableEq Fields := by unfold Fields; infer_instance

/-- `fields[key]` with the `ok` flag: the first binding of `key` wins. -/
def lookupField (fs : Fields) (key : String) : Option String :=
  match fs with
  | [] => none
  | (k, v) :: rest => if k = key then some v else lookupField rest key

/-- `fields[key] = value`: overwrite the binding if present, else append. -/
def setField (fs : Fields) (key value : String) : Fields :=
  match fs with
  | [] => [(key, value)]
  | (k, v) :: rest =>
      if k = key then (k, value) :: rest else (k, v) :: setField rest key value

/-- `strings.ToLower`, modelled characterwise. -/
def strToLower (s : String) : String := ⟨s.data.map Char.toLower⟩

/-- A compiled matcher (`*regexp.Regexp` restricted to its `MatchString`
method): opaque boolean predicate on strings. -/
def Pattern : Type := String → Bool

/-- The `for _, frag := range compiledFrags` loop of `shouldIncludeEvent`:
`true` iff the loop does not set `include = false`, i.e. every required
fragment pattern matches the lowered raw text. -/
def fragsPass (rawLowered : String) : List Pattern → Bool
  | [] => true
  | frag :: rest => if frag rawLowered then fragsPass rawLowered rest else false

/-- The `for _, frag := range compiledNotFrags` loop: `true` iff no
forbidden fragment pattern matches the lowered raw text. -/
def notFragsPass (rawLowered : String) : List Pattern → Bool
  | [] => true
  | frag :: rest => if frag rawLowered then false else notFragsPass rawLowered rest

/-- The `for key, values := range compiledFields` loop: each constrained
field must exist and at least one of its accepted patterns must match.  A
missing field breaks out with `include = false`. -/
def fieldsPass (evtFields : Fields) : List (String × List Pattern) → Bool
  | [] => true
  | (key, values) :: rest =>
      match lookupField evtFields key with
      | none => false
      | some v => if values.any (fun p => p v) then fieldsPass evtFields rest else false

/-- The `for key, values := range compiledNotFields` loop, faithfully
including its quirk: when the constrained field is absent the loop `break`s
without rejecting, so constraints after the first absent field are never
examined; when the field is present and some pattern matches, the event is
rejected. -/
def notFieldsPass (evtFields : Fields) : List (String × List Pattern) → Bool
  | [] => true
  | (key, values) :: rest =>
      match lookupField evtFields key with
      | none => true
      | some v => if values.any (fun p => p v) then false else notFieldsPass evtFields rest

/-- `shouldIncludeEvent` from the search package.  The four Go loops run in
sequence and each can only lower `include` from `true` to `false` (no loop
reads `include`), so the final value is the conjunction of the four loop
outcomes.  Returns the extracted fields (with the `source` override) and the
inclusion flag, like the Go function. -/
def shouldIncludeEvent (extract : String → Fields) (evt : EventWithId)
    (compiledFrags compiledNotFrags : List Pattern)
    (compiledFields compiledNotFields : List (String × List Pattern)) :
    Fields × Bool :=
  let rawLowered := strToLower evt.raw
  let evtFields := setField (extract rawLowered) "source" evt.source
  (evtFields,
    fragsPass rawLowered compiledFrags &&
    notFragsPass rawLowered compiledNotFrags &&
    fieldsPass evtFields compiledFields &&
    notFieldsPass evtFields compiledNotFields)

/-- The refinement pipeline of `FilterEventsStream`: every incoming page is
mapped to the page of events passing `shouldIncludeEvent`, in order; pages
(including empty ones) are forwarded in order. -/
def FilterEventsStream (extract : String → Fields)
    (pages : List (List EventWithId))
    (compiledFrags compiledNotFrags : List Pattern)
    (compiledFields compiledNotFields : List (String × List Pattern)) :
    List (List EventWithExtractedFields) :=
  pages.map (fun page =>
    page.filterMap (fun evt =>
      let r := shouldIncludeEvent extract evt compiledFrags compiledNotFrags
        compiledFields compiledNotFields
      if r.2 then
        some ⟨evt.id, evt.raw, evt.timestamp, evt.source, r.1⟩
      else none))

/-- The spec's reading of the refinement (claim C2), stated as a direct
conjunction: all required fragments match, no forbidden fragment matches,
every required-field constraint is satisfied by a present field, and no
forbidden-field constraint has a present field matched by one of its
patterns (an absent field never rejects).  This is the claim-side
definition, to be compared with `shouldIncludeEvent`. -/
def specIncludeEvent (extract : String → Fields) (evt : EventWithId)
    (compiledFrags compiledNotFrags : List Pattern)
    (compiledFields compiledNotFields : List (String × List Pattern)) : Bool :=
  let rawLowered := strToLower evt.raw
  let evtFields := setField (extract rawLowered) "source" evt.source
  compiledFrags.all (fun p => p rawLowered) &&
  compiledNotFrags.all (fun p => !(p rawLowered)) &&
  compiledFields.all (fun c =>
    match lookupField evtFields c.1 with
    | none => false
    | some v => c.2.any (fun p => p v)) &&
  compiledNotFields.all (fun c =>
    match lookupField evtFields c.1 with
    | none => true
    | some v => !(c.2.any (fun p => p v)))

/-! ## The SQLite-backed event store -/

/-- One row of the joined storage: the `Events` table row (id, source,
timestamp, offset) together with its `EventRaws` full-text row (raw), which
`AddBatch` writes under the same rowid and every query joins back on. -/
structure StoreRow where
  id : Int
  source : String
  timestamp : Int
  offset : Int
  raw : String
deriving Repr, DecidableEq

/-- The store state: rows in insertion order. -/
structure Store where
  rows : List StoreRow
deriving Repr, DecidableEq

/-- The empty store (freshly created tables). -/
def emptyStore : Store := ⟨[]⟩

/-- The maximum id among `rows`, with `0` for the empty table; SQLite assigns
the next rowid as one more than this (ids handed out by this development are
always ≥ 1, so the fold base `0` is inert). -/
def maxIdAcc (rows : List StoreRow) : Int :=
  rows.foldr (fun r m => max r.id m) 0

/-- The rowid SQLite assigns to a fresh insert. -/
def newRowId (rows : List StoreRow) : Int := maxIdAcc rows + 1

/-- `SELECT MAX(id) FROM Events`: NULL (`none`) on the empty table —
scanning that NULL into `var maxID int` fails and `FilterStream` gives up —
else the maximum id. -/
def maxIdOpt (s : Store) : Option Int :=
  if s.rows.isEmpty then none else some (maxIdAcc s.rows)

/-- Whether inserting `e` violates `UNIQUE(source, timestamp, offset)`
against the visible rows (committed rows plus rows already inserted in the
open transaction). -/
def isDup (rows : List StoreRow) (e : Event) : Bool :=
  rows.any (fun r => r.source == e.source && r.timestamp == e.timestamp &&
    r.offset == e.offset)

/-- `numberOfDuplicates[evt.Source]++` on Go's per-source counter map,
modelled as an association list in first-touch order. -/
def bumpDup (counts : List (String × Int)) (src : String) : List (String × Int) :=
  match counts with
  | [] => [(src, 1)]
  | (k, v) :: rest =>
      if k = src then (k, v + 1) :: rest else (k, v) :: bumpDup rest src

/-- How the transaction of one `AddBatch` call ended. -/
inductive TxEnd where
  /-- `tx.Commit()` succeeded. -/
  | committed
  /-- `tx.Commit()` was called but reported an error (the transaction's
  effects are discarded by SQLite). -/
  | commitFailed
  /-- `tx.Rollback()` was called. -/
  | rolledBack
  /-- `BeginTx` itself failed; no transaction was opened. -/
  | notStarted
deriving Repr, DecidableEq

/-- The in-transaction accumulator of the `AddBatch` loop. -/
structure TxState where
  /-- Rows inserted by this transaction so far (not yet committed). -/
  pending : List StoreRow
  /-- The `ret` slice built so far: one entry per processed event, `0` for a
  skipped duplicate. -/
  ids : List Int
  /-- The per-source duplicate counters. -/
  dups : List (String × Int)
deriving Repr, DecidableEq

/-- The `for i, evt := range events` loop of `AddBatch`.  `base` is the
committed store contents; `insertFail i` injects a non-duplicate error into
the i-th `INSERT INTO Events`, `rawInsertFail i` into the i-th
`INSERT INTO EventRaws`.  A duplicate triple is reported by the UNIQUE
constraint and skipped; any injected error aborts the loop (the Go code then
rolls back and returns the error). -/
def addLoop (base : List StoreRow) (insertFail rawInsertFail : Nat → Bool) :
    Nat → TxState → List Event → Except String TxState
  | _, st, [] => .ok st
  | i, st, e :: rest =>
      if isDup (base ++ st.pending) e then
        addLoop base insertFail rawInsertFail (i + 1)
          ⟨st.pending, st.ids ++ [0], bumpDup st.dups e.source⟩ rest
      else if insertFail i then
        .error "error executing add statement"
      else if rawInsertFail i then
        .error "error executing add raw statement"
      else
        let id := newRowId (base ++ st.pending)
        addLoop base insertFail rawInsertFail (i + 1)
          ⟨st.pending ++ [⟨id, e.source, e.timestamp, e.offset, e.raw⟩],
           st.ids ++ [id], st.dups⟩ rest

/-- The result of one `AddBatch` call. -/
structure AddBatchResult where
  /-- The returned error (`nil` = `none`). -/
  err : Option String
  /-- The returned identity slice (`nil` = `none`). -/
  ids : Option (List Int)
  /-- The store as visible after the call. -/
  store : Store
  /-- How the transaction ended. -/
  txEnd : TxEnd
  /-- The per-source duplicate counts logged after the commit (one log line
  per source); empty on the early-return error paths, which log nothing. -/
  loggedDups : List (String × Int)
deriving Repr, DecidableEq

/-- `AddBatch` with injected failures: `beginFail` fails `BeginTx`,
`insertFail` / `rawInsertFail` fail individual inserts, `commitFail` makes
`tx.Commit()` report an error.  Faithful to the Go code, a failed commit is
*ignored* (the `if err != nil` branch after `tx.Commit()` is empty), so the
call still returns the identity slice and a `nil` error even though nothing
was persisted. -/
def AddBatchFull (s : Store) (events : List Event) (beginFail : Bool)
    (insertFail rawInsertFail : Nat → Bool) (commitFail : Bool) :
    AddBatchResult :=
  if beginFail then
    ⟨some "error starting transaction for adding event", none, s, .notStarted, []⟩
  else
    match addLoop s.rows insertFail rawInsertFail 0 ⟨[], [], []⟩ events with
    | .error msg => ⟨some msg, none, s, .rolledBack, []⟩
    | .ok st =>
        if commitFail then
          ⟨none, some st.ids, s, .commitFailed, st.dups⟩
        else
          ⟨none, some st.ids, ⟨s.rows ++ st.pending⟩, .committed, st.dups⟩

/-- `AddBatch` on a healthy database: no injected failures. -/
def AddBatch (s : Store) (events : List Event) : AddBatchResult :=
  AddBatchFull s events false (fun _ => false) (fun _ => false) false

/-- The `AddBatch` loop with no injected failures, written as a total
function on the accumulator's three components; `addLoop_noFail` shows it is
what `addLoop` computes on a healthy database. -/
def addPure (base : List StoreRow) (pending : List StoreRow) (ids : List Int)
    (dups : List (String × Int)) : List Event → TxState
  | [] => ⟨pending, ids, dups⟩
  | e :: rest =>
      if isDup (base ++ pending) e then
        addPure base pending (ids ++ [0]) (bumpDup dups e.source) rest
      else
        addPure base
          (pending ++ [⟨newRowId (base ++ pending), e.source, e.timestamp,
            e.offset, e.raw⟩])
          (ids ++ [newRowId (base ++ pending)]) dups rest

/-- Two events carry the same `(source, timestamp, offset)` triple — the
key of the store's UNIQUE constraint. -/
def sameTriple (a b : Event) : Prop :=
  a.source = b.source ∧ a.timestamp = b.timestamp ∧ a.offset = b.offset

instance : ∀ a b : Event, Decidable (sameTriple a b) := fun a b => by
  unfold sameTriple; infer_instance

/-- The store states reachable through `AddBatch`: rows appear in id order
(ids strictly increase along the insertion order) and every id is
positive. -/
def StoreWf (s : Store) : Prop :=
  (s.rows.map (fun r => r.id)).Chain' (· < ·) ∧ ∀ r ∈ s.rows, 1 ≤ r.id

/-! ## FilterStream -/

/-- The page size constant of the Go file. -/
def filterStreamPageSize : Nat := 1000

/-- The `ORDER BY e.timestamp DESC, e.id DESC` comparator: `rowLe a b` means
`a` may appear no later than `b`. -/
def rowLe (a b : StoreRow) : Prop :=
  b.timestamp < a.timestamp ∨ (b.timestamp = a.timestamp ∧ b.id ≤ a.id)

instance : DecidableRel rowLe := fun a b => by
  unfold rowLe; infer_instance

instance : IsTotal StoreRow rowLe :=
  ⟨fun a b => by unfold rowLe; omega⟩

instance : IsTrans StoreRow rowLe :=
  ⟨fun a b c hab hbc => by unfold rowLe at *; omega⟩

/-- Strict reverse-chronological precedence: `a` comes strictly before `b`
in the `ORDER BY timestamp DESC, id DESC` order. -/
def revChron (a b : StoreRow) : Prop :=
  b.timestamp < a.timestamp ∨ (b.timestamp = a.timestamp ∧ b.id < a.id)

/-- The optional `e.timestamp >= startTime` / `e.timestamp <= endTime`
clauses. -/
def timeOk (startTime endTime : Option Int) (r : StoreRow) : Bool :=
  (match startTime with | none => true | some t => t ≤ r.timestamp) &&
  (match endTime with | none => true | some t => r.timestamp ≤ t)

/-- The paging loop: each iteration fetches `LIMIT 1000 OFFSET k·1000` from
the (totally ordered, hence stable) result set, pushes the page — possibly
empty — to the channel, stops when the page holds fewer rows than the page
size, else advances the offset by the page size.  `queryFail k` injects a
query error into the k-th page fetch: the Go code then logs and returns,
closing the channel without delivering anything further.  `fuel` bounds the
remaining iterations (the Go loop terminates because each continuing
iteration consumes a full page of the finite result set); `pageLoop` below
supplies enough fuel, and `pageLoop_eq` shows the value is
fuel-independent. -/
def pageLoopAux (queryFail : Nat → Bool) : Nat → Nat → List StoreRow →
    List (List StoreRow)
  | 0, _, _ => []
  | fuel + 1, k, l =>
      if queryFail k then []
      else if l.length < filterStreamPageSize then [l]
      else
        l.take filterStreamPageSize ::
          pageLoopAux queryFail fuel (k + 1) (l.drop filterStreamPageSize)

/-- The paging loop with sufficient fuel. -/
def pageLoop (queryFail : Nat → Bool) (k : Nat) (l : List StoreRow) :
    List (List StoreRow) :=
  pageLoopAux queryFail (l.length + 1) k l

/-- The rows the coarse query selects: strictly below the snapshotted
maximum id, inside the optional time bounds, and matched by the FTS `MATCH`
clause (abstracted as `matchPred`), ordered by timestamp descending then id
descending. -/
def coarseRows (s : Store) (matchPred : StoreRow → Bool)
    (startTime endTime : Option Int) (maxID : Int) : List StoreRow :=
  List.insertionSort rowLe
    (s.rows.filter (fun r =>
      decide (r.id < maxID) && timeOk startTime endTime r && matchPred r))

/-- `FilterStream` with an injected per-page query failure: snapshot
`MAX(id)` once (on the empty table the NULL scan fails and the stream closes
with no pages), then run the paging loop.  The stream is modelled as the
finite list of pages pushed to the channel before it is closed. -/
def FilterStreamFull (s : Store) (matchPred : StoreRow → Bool)
    (startTime endTime : Option Int) (queryFail : Nat → Bool) :
    List (List StoreRow) :=
  match maxIdOpt s with
  | none => []
  | some maxID => pageLoop queryFail 0 (coarseRows s matchPred startTime endTime maxID)

/-- `FilterStream` on a healthy database: no injected query failures. -/
def FilterStream (s : Store) (matchPred : StoreRow → Bool)
    (startTime endTime : Option Int) : List (List StoreRow) :=
  FilterStreamFull s matchPred startTime endTime (fun _ => false)

/-- The row predicate the `MATCH` clause evaluates for a `FilterStream`
call with no sources, notSources or fragments: `buildMatchString` then
produces the empty string, every page query carries `AND EventRaws MATCH ''`,
and SQLite FTS4 matches no row against the empty match expression (modelled
from SQLite's verified behaviour), so the predicate rejects every row. -/
def matchEmpty : StoreRow → Bool := fun _ => false

/-! ## The coarse match string (`FilterStream`'s SQL construction) -/

/-- The `matchString` built by `FilterStream` for the `EventRaws MATCH`
clause, concatenated exactly as the Go code does: an opening parenthesis
when sources exist, `source:` terms each followed by a space, the closing
parenthesis either right after the sources (when there are no notSources)
or after the `NOT source:` terms (note: when there are notSources but no
sources, a closing parenthesis is emitted with no opening one), then
` AND ` whenever any source constraint exists, then the `raw:` fragment
terms in parentheses. -/
def buildMatchString (sources notSources fragments : List String) : String :=
  (if sources.length > 0 then "(" else "") ++
  String.join (sources.map (fun s => "source:" ++ s ++ " ")) ++
  (if sources.length > 0 && notSources.length == 0 then ")" else "") ++
  String.join (notSources.map (fun s => "NOT source:" ++ s ++ " ")) ++
  (if notSources.length > 0 then ")" else "") ++
  (if sources.length > 0 || notSources.length > 0 then " AND " else "") ++
  (if fragments.length > 0 then "(" else "") ++
  String.join (fragments.map (fun f => "raw:" ++ f ++ " ")) ++
  (if fragments.length > 0 then ")" else "")

/-- The full statement `FilterStream` sends for one page, concatenated
exactly as the Go code does.  The `MATCH` clause is appended
unconditionally, with whatever `buildMatchString` produced (possibly the
empty string). -/
def buildStmt (maxID : Int) (sources notSources fragments : List String)
    (startTime endTime : Option Int) (offset : Nat) : String :=
  "SELECT e.id, e.source, e.timestamp, r.raw FROM Events e INNER JOIN EventRaws r ON r.rowid = e.id WHERE e.id < " ++
  toString maxID ++
  (match startTime with
   | none => ""
   | some t => " AND e.timestamp >= '" ++ toString t ++ "'") ++
  (match endTime with
   | none => ""
   | some t => " AND e.timestamp <= '" ++ toString t ++ "'") ++
  " AND EventRaws MATCH '" ++ buildMatchString sources notSources fragments ++ "'" ++
  " ORDER BY e.timestamp DESC, e.id DESC LIMIT " ++ toString filterStreamPageSize ++
  " OFFSET " ++ toString offset ++ ";"

/-- `s` contains `pat` as a substring. -/
def containsStr (s pat : String) : Prop := ∃ a b, s = a ++ pat ++ b

/-! ## GetByIds -/

/-- The zero value of `EventWithId`, as left by `make([]EventWithId, n)` in
slots never written. -/
def zeroEventWithId : EventWithId := ⟨0, "", 0, ""⟩

/-- `GetByIds`: the slice is preallocated with `len(ids)` zero values and
filled from index 0 in row-retrieval order (the store's row order restricted
to the requested ids), not aligned with the positions of `ids`; missing ids
leave zero values at the tail.  For the empty id list the generated SQL ends
in `IN ();`, which SQLite accepts — an empty `IN` list matches no row
(modelled from SQLite's verified behaviour) — so the query returns no rows
and the call returns the empty preallocated slice with no error. -/
def GetByIds (s : Store) (ids : List Int) : Except String (List EventWithId) :=
  let found := (s.rows.filter (fun r => ids.contains r.id)).map
    (fun r => EventWithId.mk r.id r.source r.timestamp r.raw)
  .ok (found ++ List.replicate (ids.length - found.length) zeroEventWithId)

/-! ## The batched publisher -/

/-- What the flushing goroutine of `BatchedRepositoryPublisher` can observe
in one `select` round. -/
inductive PubMsg where
  /-- The 1-second timer (`<-timeout`) fired. -/
  | tick
  /-- An event arrived on the `adder` channel. -/
  | recv (e : Event)

/-- The flushing goroutine's state: the accumulation buffer it owns, plus an
observation log — the batches handed to `repo.AddBatch` in order, and how
often `timeout = time.After(1 * time.Second)` re-armed the timer. -/
structure PubState where
  accumulated : List Event
  flushes : List (List Event)
  timerResets : Nat
deriving Repr, DecidableEq

/-- The goroutine's state at start: empty buffer, timer armed once. -/
def pubInit : PubState := ⟨[], [], 1⟩

/-- One `select` round of the flushing goroutine.  On a timer tick: flush
the buffer if non-empty, re-arm the timer either way.  On a received event:
append it; if the buffer has reached 1000 events, flush immediately and
re-arm the timer. -/
def pubStep (st : PubState) (m : PubMsg) : PubState :=
  match m with
  | .tick =>
      if st.accumulated.isEmpty then
        ⟨st.accumulated, st.flushes, st.timerResets + 1⟩
      else
        ⟨[], st.flushes ++ [st.accumulated], st.timerResets + 1⟩
  | .recv e =>
      let acc := st.accumulated ++ [e]
      if 1000 ≤ acc.length then
        ⟨[], st.flushes ++ [acc], st.timerResets + 1⟩
      else
        ⟨acc, st.flushes, st.timerResets⟩

/-- Run the goroutine over a sequence of observations. -/
def pubRun (ms : List PubMsg) : PubState := ms.foldl pubStep pubInit

/-! ## PublishEvent -/

/-- `PublishEvent` up to the channel send: enrich the raw event with the
host name and a timestamp.  `extract` stands for `parser.ExtractFields`,
`parseTime layout value` for `time.Parse` (`none` = parse error), and `now`
for `time.Now()` at the call.  Returns the enqueued event together with
whether the parse-failure warning was logged; the Go method has no error
return, so neither has the model. -/
def PublishEvent (hostName : String) (extract : String → Fields)
    (parseTime : String → String → Option Int) (now : Int)
    (evt : RawEvent) (timeLayout : String) : Event × Bool :=
  let fields := extract (strToLower evt.raw)
  match lookupField fields "_time" with
  | some t =>
      match parseTime timeLayout t with
      | none => (⟨evt.raw, hostName, evt.source, evt.offset, now⟩, true)
      | some parsed => (⟨evt.raw, hostName, evt.source, evt.offset, parsed⟩, false)
  | none => (⟨evt.raw, hostName, evt.source, evt.offset, now⟩, false)

/-- The coarse match expression as the amended claim C3 describes it: all
`source:` and `NOT source:` terms separated by single spaces, preceded by an
opening parenthesis exactly when there are sources and followed by ` )` and
the separator ` AND ` whenever any source constraint exists (so with
notSources but no sources the closing parenthesis has no opening partner,
and with no fragments the ` AND ` trails); then the `raw:` fragment terms,
space-separated, in parentheses.  Compared against `buildMatchString` in
the amended C3 theorem. -/
def specMatchString (sources notSources fragments : List String) : String :=
  let srcTerms := sources.map (fun s => "source:" ++ s) ++
    notSources.map (fun s => "NOT source:" ++ s)
  (if srcTerms.isEmpty then ""
   else
     (if sources.isEmpty then "" else "(") ++
       String.intercalate " " srcTerms ++ " ) AND ") ++
  (if fragments.isEmpty then ""
   else "(" ++ String.intercalate " " (fragments.map (fun f => "raw:" ++ f)) ++ " )")

end Logsuck

namespace Logsuck

/-! ## String lemmas for the match-string construction -/

theorem str_join_nil : String.join ([] : List String) = "" := rfl

theorem str_append_empty (s : String) : s ++ "" = s := by
  apply String.ext
  simp [String.data_append]

theorem str_join_append (l₁ l₂ : List String) :
    String.join (l₁ ++ l₂) = String.join l₁ ++ String.join l₂ := by
  apply String.ext
  rw [String.data_append, String.join_eq, String.join_eq, String.join_eq]
  simp

theorem str_join_cons (s : String) (l : List String) :
    String.join (s :: l) = s ++ String.join l := by
  apply String.ext
  rw [String.data_append, String.join_eq, String.join_eq]
  simp

theorem intercalate_go_eq (as : List String) :
    ∀ acc : String, String.intercalate.go acc " " as =
      acc ++ String.join (as.map (fun a => " " ++ a)) := by
  induction as with
  | nil =>
      intro acc
      simp only [String.intercalate.go, List.map_nil, str_join_nil]
      apply String.ext
      simp [String.data_append]
  | cons a rest ih =>
      intro acc
      simp only [String.intercalate.go, List.map_cons, str_join_cons]
      rw [ih (acc ++ " " ++ a)]
      simp [String.append_assoc]

theorem intercalate_cons_space (t : String) (ts : List String) :
    String.intercalate " " (t :: ts) =
      t ++ String.join (ts.map (fun a => " " ++ a)) := by
  simp only [String.intercalate]
  exact intercalate_go_eq ts t

theorem join_space_swap (ts : List String) :
    " " ++ String.join (ts.map (fun t => t ++ " ")) =
      String.join (ts.map (fun t => " " ++ t)) ++ " " := by
  induction ts with
  | nil =>
      apply String.ext
      simp [String.data_append, str_join_nil]
  | cons u us ih =>
      simp only [List.map_cons, str_join_cons]
      rw [show " " ++ (u ++ " " ++ String.join (us.map (fun t => t ++ " "))) =
        (" " ++ u) ++ (" " ++ String.join (us.map (fun t => t ++ " "))) by
          simp [String.append_assoc], ih]
      simp [String.append_assoc]

theorem join_map_space (t : String) (ts : List String) :
    String.join ((t :: ts).map (fun x => x ++ " ")) =
      String.intercalate " " (t :: ts) ++ " " := by
  rw [List.map_cons, str_join_cons, intercalate_cons_space,
    String.append_assoc, join_space_swap, ← String.append_assoc]

/-- The fragment group of the match string, rewritten from Go's
join-with-trailing-spaces form into the spec's intercalate form. -/
theorem frag_group_eq (fragments : List String) :
    (if fragments.length > 0 then "(" else "") ++
      String.join (fragments.map (fun f => "raw:" ++ f ++ " ")) ++
      (if fragments.length > 0 then ")" else "") =
    (if fragments.isEmpty then ""
     else "(" ++ String.intercalate " " (fragments.map (fun f => "raw:" ++ f)) ++
       " )") := by
  cases fragments with
  | nil =>
      apply String.ext
      simp [String.data_append, str_join_nil]
  | cons f fs =>
      have c1 : (f :: fs).length > 0 := by simp
      have c2 : ¬ ((f :: fs).isEmpty = true) := by simp
      rw [if_pos c1, if_pos c1, if_neg c2]
      have hm : (f :: fs).map (fun x => "raw:" ++ x ++ " ") =
          ((f :: fs).map (fun x => "raw:" ++ x)).map (fun t => t ++ " ") := by
        simp [List.map_map, Function.comp]
      rw [hm, List.map_cons, join_map_space]
      apply String.ext
      simp [String.data_append]

/-- The source group of the match string, rewritten from Go's form into the
spec's intercalate form. -/
theorem src_group_eq (sources notSources : List String) :
    (if sources.length > 0 then "(" else "") ++
      String.join (sources.map (fun s => "source:" ++ s ++ " ")) ++
      (if sources.length > 0 && notSources.length == 0 then ")" else "") ++
      String.join (notSources.map (fun s => "NOT source:" ++ s ++ " ")) ++
      (if notSources.length > 0 then ")" else "") ++
      (if sources.length > 0 || notSources.length > 0 then " AND " else "") =
    (if (sources.map (fun s => "source:" ++ s) ++
        notSources.map (fun s => "NOT source:" ++ s)).isEmpty then ""
     else (if sources.isEmpty then "" else "(") ++
       String.intercalate " " (sources.map (fun s => "source:" ++ s) ++
         notSources.map (fun s => "NOT source:" ++ s)) ++ " ) AND ") := by
  cases sources with
  | nil =>
      cases notSources with
      | nil =>
          apply String.ext
          simp [String.data_append, str_join_nil]
      | cons n ns =>
          have c1 : ¬ (([] : List String).length > 0) := by simp
          have c2 : ¬ ((([] : List String).length > 0 &&
              (n :: ns).length == 0) = true) := by simp
          have c3 : (n :: ns).length > 0 := by simp
          have c4 : (decide (([] : List String).length > 0) ||
              decide ((n :: ns).length > 0)) = true := by simp
          have c5 : ¬ ((([] : List String).map (fun s => "source:" ++ s) ++
              (n :: ns).map (fun s => "NOT source:" ++ s)).isEmpty = true) := by
            simp
          have c6 : (([] : List String).isEmpty = true) := by simp
          rw [if_neg c1, if_neg c2, if_pos c3, if_pos c4, if_neg c5, if_pos c6]
          have hm : (n :: ns).map (fun s => "NOT source:" ++ s ++ " ") =
              ((n :: ns).map (fun s => "NOT source:" ++ s)).map
                (fun t => t ++ " ") := by
            simp [List.map_map, Function.comp]
          rw [hm, List.map_cons, join_map_space]
          apply String.ext
          simp [String.data_append, str_join_nil]
  | cons s ss =>
      cases notSources with
      | nil =>
          have c1 : (s :: ss).length > 0 := by simp
          have c2 : (((s :: ss).length > 0 &&
              ([] : List String).length == 0) = true) := by simp
          have c3 : ¬ (([] : List String).length > 0) := by simp
          have c4 : (decide ((s :: ss).length > 0) ||
              decide (([] : List String).length > 0)) = true := by simp
          have c5 : ¬ (((s :: ss).map (fun x => "source:" ++ x) ++
              ([] : List String).map (fun x => "NOT source:" ++ x)).isEmpty
                = true) := by simp
          have c6 : ¬ ((s :: ss).isEmpty = true) := by simp
          rw [if_pos c1, if_pos c2, if_neg c3, if_pos c4, if_neg c5, if_neg c6]
          have hm : (s :: ss).map (fun x => "source:" ++ x ++ " ") =
              ((s :: ss).map (fun x => "source:" ++ x)).map
                (fun t => t ++ " ") := by
            simp [List.map_map, Function.comp]
          rw [hm, List.map_cons, join_map_space]
          apply String.ext
          simp [String.data_append, str_join_nil]
      | cons n ns =>
          have c1 : (s :: ss).length > 0 := by simp
          have c2 : ¬ (((s :: ss).length > 0 &&
              (n :: ns).length == 0) = true) := by simp
          have c3 : (n :: ns).length > 0 := by simp
          have c4 : (decide ((s :: ss).length > 0) ||
              decide ((n :: ns).length > 0)) = true := by simp
          have c5 : ¬ (((s :: ss).map (fun x => "source:" ++ x) ++
              (n :: ns).map (fun x => "NOT source:" ++ x)).isEmpty = true) := by
            simp
          have c6 : ¬ ((s :: ss).isEmpty = true) := by simp
          rw [if_pos c1, if_neg c2, if_pos c3, if_pos c4, if_neg c5, if_neg c6]
          have hm1 : (s :: ss).map (fun x => "source:" ++ x ++ " ") =
              ((s :: ss).map (fun x => "source:" ++ x)).map
                (fun t => t ++ " ") := by
            simp [List.map_map, Function.comp]
          have hm2 : (n :: ns).map (fun x => "NOT source:" ++ x ++ " ") =
              ((n :: ns).map (fun x => "NOT source:" ++ x)).map
                (fun t => t ++ " ") := by
            simp [List.map_map, Function.comp]
          rw [hm1, hm2, str_append_empty, String.append_assoc "(",
            ← str_join_append, ← List.map_append, List.map_cons,
            List.cons_append, join_map_space]
          apply String.ext
          simp [String.data_append]

/-! ## Lemmas about the refinement loops -/

theorem fragsPass_eq_all (raw : String) (l : List Pattern) :
    fragsPass raw l = l.all (fun p => p raw) := by
  induction l with
  | nil => rfl
  | cons p rest ih => cases h : p raw <;> simp [fragsPass, h, ih]

theorem notFragsPass_eq_all (raw : String) (l : List Pattern) :
    notFragsPass raw l = l.all (fun p => !(p raw)) := by
  induction l with
  | nil => rfl
  | cons p rest ih => cases h : p raw <;> simp [notFragsPass, h, ih]

theorem fieldsPass_iff (f : Fields) (cs : List (String × List Pattern)) :
    fieldsPass f cs = true ↔
      ∀ c ∈ cs, ∃ v, lookupField f c.1 = some v ∧ ∃ p ∈ c.2, p v = true := by
  induction cs with
  | nil => simp [fieldsPass]
  | cons c rest ih =>
      obtain ⟨key, values⟩ := c
      cases hl : lookupField f key with
      | none =>
          simp only [fieldsPass, hl, Bool.false_eq_true, false_iff]
          intro hall
          obtain ⟨w, hw, _⟩ := hall ⟨key, values⟩ (List.mem_cons_self _ _)
          rw [hl] at hw
          cases hw
      | some v =>
          by_cases ha : values.any (fun p => p v) = true
          · simp only [fieldsPass, hl]
            rw [if_pos ha, ih]
            simp only [List.forall_mem_cons]
            exact ⟨fun h => ⟨⟨v, hl, List.any_eq_true.mp ha⟩, h⟩, fun h => h.2⟩
          · simp only [fieldsPass, hl]
            rw [if_neg ha]
            simp only [Bool.false_eq_true, false_iff]
            intro hall
            obtain ⟨w, hw, p, hp, hpv⟩ := hall ⟨key, values⟩ (List.mem_cons_self _ _)
            rw [hl] at hw
            cases hw
            exact ha (List.any_eq_true.mpr ⟨p, hp, hpv⟩)

theorem notFieldsPass_false_present_match (f : Fields)
    (cs : List (String × List Pattern)) (h : notFieldsPass f cs = false) :
    ∃ c ∈ cs, ∃ v, lookupField f c.1 = some v ∧ ∃ p ∈ c.2, p v = true := by
  induction cs with
  | nil => cases h
  | cons c rest ih =>
      obtain ⟨key, values⟩ := c
      cases hl : lookupField f key with
      | none =>
          simp only [notFieldsPass, hl] at h
          cases h
      | some v =>
          simp only [notFieldsPass, hl] at h
          by_cases ha : values.any (fun p => p v) = true
          · obtain ⟨p, hp, hpv⟩ := List.any_eq_true.mp ha
            exact ⟨⟨key, values⟩, List.mem_cons_self _ _, v, hl, p, hp, hpv⟩
          · rw [if_neg ha] at h
            obtain ⟨c, hc, hcc⟩ := ih h
            exact ⟨c, List.mem_cons_of_mem _ hc, hcc⟩

theorem notFieldsPass_singleton (f : Fields) (key : String) (ps : List Pattern) :
    notFieldsPass f [(key, ps)] = true ↔
      (lookupField f key = none ∨
        ∃ v, lookupField f key = some v ∧ ∀ p ∈ ps, p v = false) := by
  cases hl : lookupField f key with
  | none => simp [notFieldsPass, hl]
  | some v =>
      simp only [notFieldsPass, hl]
      by_cases ha : ps.any (fun p => p v) = true
      · rw [if_pos ha]
        simp only [Bool.false_eq_true, false_iff]
        obtain ⟨p, hp, hpv⟩ := List.any_eq_true.mp ha
        rintro (hnone | ⟨w, hw, hall⟩)
        · cases hnone
        · cases hw
          rw [hall p hp] at hpv
          cases hpv
      · rw [if_neg ha]
        simp only [true_iff]
        right
        refine ⟨v, rfl, fun p hp => ?_⟩
        cases hpv : p v
        · rfl
        · exact absurd (List.any_eq_true.mpr ⟨p, hp, hpv⟩) ha

/-! ## Claim C2 -/

/-- C2, counterexample: the claimed inclusion criterion is not exact.  With
two forbidden-field constraints, iterated with the constraint on the absent
field `a` first, the `break` on absence skips the constraint on `b`, so an
event whose field `b` matches a forbidden pattern is still included, while
the claim's criterion (`specIncludeEvent`) excludes it. -/
theorem shouldIncludeEvent_forbidden_after_absent_not_enforced :
    (shouldIncludeEvent (fun _ => [("b", "x")]) ⟨1, "srcA", 0, "log"⟩ [] [] []
        [("a", [fun v => v == "zzz"]), ("b", [fun v => v == "x"])]).2 = true ∧
    specIncludeEvent (fun _ => [("b", "x")]) ⟨1, "srcA", 0, "log"⟩ [] [] []
        [("a", [fun v => v == "zzz"]), ("b", [fun v => v == "x"])] = false := by
  constructor
  · decide
  · decide

/-- C2 (amended): an event delivered by the coarse scan is included iff all
required-fragment patterns match the lowercased raw text, no
forbidden-fragment pattern matches it, every required-field constraint has
its field present with some accepted pattern matching, and the
forbidden-field check passes — where the forbidden-field check walks the
constraints in iteration order and stops, accepting, at the first absent
field.  An absent field never causes rejection (a forbidden-field rejection
always exhibits a present, matching field), and with a single
forbidden-field constraint the claimed semantics is exact: absent field
included, present matching field excluded. -/
theorem shouldIncludeEvent_characterization (extract : String → Fields)
    (evt : EventWithId) (compiledFrags compiledNotFrags : List Pattern)
    (compiledFields compiledNotFields : List (String × List Pattern)) :
    ((shouldIncludeEvent extract evt compiledFrags compiledNotFrags
        compiledFields compiledNotFields).2 = true ↔
      ((∀ p ∈ compiledFrags, p (strToLower evt.raw) = true) ∧
       (∀ p ∈ compiledNotFrags, p (strToLower evt.raw) = false) ∧
       (∀ c ∈ compiledFields, ∃ v,
         lookupField (setField (extract (strToLower evt.raw)) "source" evt.source)
           c.1 = some v ∧ ∃ p ∈ c.2, p v = true) ∧
       notFieldsPass (setField (extract (strToLower evt.raw)) "source" evt.source)
         compiledNotFields = true)) ∧
    (notFieldsPass (setField (extract (strToLower evt.raw)) "source" evt.source)
        compiledNotFields = false →
      ∃ c ∈ compiledNotFields, ∃ v,
        lookupField (setField (extract (strToLower evt.raw)) "source" evt.source)
          c.1 = some v ∧ ∃ p ∈ c.2, p v = true) ∧
    (∀ key ps,
      notFieldsPass (setField (extract (strToLower evt.raw)) "source" evt.source)
          [(key, ps)] = true ↔
        (lookupField (setField (extract (strToLower evt.raw)) "source" evt.source)
            key = none ∨
         ∃ v, lookupField (setField (extract (strToLower evt.raw)) "source"
            evt.source) key = some v ∧ ∀ p ∈ ps, p v = false)) := by
  refine ⟨?_, notFieldsPass_false_present_match _ _,
    fun key ps => notFieldsPass_singleton _ key ps⟩
  simp only [shouldIncludeEvent, Bool.and_eq_true, fragsPass_eq_all,
    notFragsPass_eq_all, fieldsPass_iff, List.all_eq_true, Bool.not_eq_true',
    and_assoc]

/-- C2 witness: the claim's own scenario — field constraint
`status ∈ {"500", "502"}` on an event whose extracted fields carry
`status = 502` — is included. -/
theorem shouldIncludeEvent_characterization_witness :
    (shouldIncludeEvent (fun _ => [("status", "502")])
      ⟨7, "app", 3, "GET /x 502"⟩ [] []
      [("status", [fun v => v == "500", fun v => v == "502"])] []).2 = true :=
  (shouldIncludeEvent_characterization (fun _ => [("status", "502")])
      ⟨7, "app", 3, "GET /x 502"⟩ [] []
      [("status", [fun v => v == "500", fun v => v == "502"])] []).1.mpr
    ⟨by simp, by simp, by
      intro c hc
      rw [List.mem_singleton] at hc
      subst hc
      exact ⟨"502", by decide, by decide⟩, by decide⟩

/-! ## Claim C8 -/

/-- C8: when the extracted fields carry a `_time` value that fails to parse
under the given layout, the enqueued event's timestamp is the wall clock at
enqueue (`now`) and the warning is logged; when no `_time` field is
extracted, the same wall-clock fallback applies (without the warning).  The
Go method has no error return at all, so no error can reach the caller. -/
theorem PublishEvent_time_fallback (hostName : String) (extract : String → Fields)
    (parseTime : String → String → Option Int) (now : Int) (evt : RawEvent)
    (timeLayout : String) :
    (∀ t, lookupField (extract (strToLower evt.raw)) "_time" = some t →
      parseTime timeLayout t = none →
      (PublishEvent hostName extract parseTime now evt timeLayout).1.timestamp = now ∧
      (PublishEvent hostName extract parseTime now evt timeLayout).2 = true) ∧
    (lookupField (extract (strToLower evt.raw)) "_time" = none →
      (PublishEvent hostName extract parseTime now evt timeLayout).1.timestamp = now ∧
      (PublishEvent hostName extract parseTime now evt timeLayout).2 = false) := by
  constructor
  · intro t ht hp
    simp [PublishEvent, ht, hp]
  · intro h
    simp [PublishEvent, h]

/-- C8 witness: a concrete unparsable `_time` value falls back to the
enqueue-time wall clock 42 and logs the warning. -/
theorem PublishEvent_time_fallback_witness :
    (PublishEvent "host1" (fun _ => [("_time", "bogus")]) (fun _ _ => none) 42
      ⟨"RAW", "srcA", 9⟩ "2006-01-02").1.timestamp = 42 ∧
    (PublishEvent "host1" (fun _ => [("_time", "bogus")]) (fun _ _ => none) 42
      ⟨"RAW", "srcA", 9⟩ "2006-01-02").2 = true :=
  (PublishEvent_time_fallback "host1" (fun _ => [("_time", "bogus")])
    (fun _ _ => none) 42 ⟨"RAW", "srcA", 9⟩ "2006-01-02").1 "bogus" (by decide) rfl

/-! ## Claim C4 -/

/-- C4: the commit-failure path contradicts the claim.  On a batch whose
transaction fails at `tx.Commit()`, `AddBatch` returns a `nil` error (the
`if err != nil` branch after the commit is empty) together with the identity
slice, even though nothing was persisted — the error is not surfaced to the
caller.  (On the insert-error paths the code does roll back and surface the
error; the commit path is the slip.) -/
theorem AddBatch_commit_error_swallowed :
    (AddBatchFull emptyStore [⟨"raw line", "host1", "srcA", 0, 5⟩] false
        (fun _ => false) (fun _ => false) true).err = none ∧
    (AddBatchFull emptyStore [⟨"raw line", "host1", "srcA", 0, 5⟩] false
        (fun _ => false) (fun _ => false) true).ids = some [1] ∧
    (AddBatchFull emptyStore [⟨"raw line", "host1", "srcA", 0, 5⟩] false
        (fun _ => false) (fun _ => false) true).store = emptyStore ∧
    (AddBatchFull emptyStore [⟨"raw line", "host1", "srcA", 0, 5⟩] false
        (fun _ => false) (fun _ => false) true).txEnd = TxEnd.commitFailed := by
  refine ⟨?_, ?_, ?_, ?_⟩ <;> decide

/-! ## Claim C6 -/

/-- Booleans agreeing on `= true` are equal; used to transfer the
propositional loop characterizations back to `Bool`-valued equalities. -/
theorem bool_eq_of_iff {a b : Bool} (h : a = true ↔ b = true) : a = b := by
  cases a <;> cases b <;> simp_all

/-- `List.all` only depends on the multiset of elements. -/
theorem all_perm_eq {α : Type} (f : α → Bool) {l l' : List α} (h : l.Perm l') :
    l.all f = l'.all f := by
  apply bool_eq_of_iff
  simp only [List.all_eq_true]
  exact ⟨fun H x hx => H x (h.mem_iff.mpr hx), fun H x hx => H x (h.mem_iff.mp hx)⟩

/-- C6, counterexample: the same Search (the forbidden-field map
`{a ↦ {"zzz"}, b ↦ {"x"}}`) observed under two Go map iteration orders
yields different `FilterEventsStream` outputs on the same store pages: with
the absent field `a` iterated first the event passes (the loop breaks),
with `b` first it is rejected. -/
theorem FilterEventsStream_depends_on_notFields_order :
    ([(("a" : String), [fun v => v == "zzz"]), ("b", [fun v => v == "x"])] :
        List (String × List Pattern)).Perm
      [("b", [fun v => v == "x"]), ("a", [fun v => v == "zzz"])] ∧
    FilterEventsStream (fun _ => [("b", "x")]) [[⟨1, "srcA", 0, "log"⟩]] [] [] []
        [("a", [fun v => v == "zzz"]), ("b", [fun v => v == "x"])] ≠
      FilterEventsStream (fun _ => [("b", "x")]) [[⟨1, "srcA", 0, "log"⟩]] [] [] []
        [("b", [fun v => v == "x"]), ("a", [fun v => v == "zzz"])] := by
  constructor
  · exact List.Perm.swap _ _ _
  · decide

/-- C6 (amended): `FilterEventsStream` is a pure function of its inputs
including the iteration order of the compiled constraint collections, so
re-running the same Search with the same orders gives identical output; the
output is moreover invariant under reordering of the required-fragment,
forbidden-fragment and required-field constraints.  (It is not invariant
under reordering of the forbidden-field constraints, see the
counterexample.) -/
theorem FilterEventsStream_order_invariance (extract : String → Fields)
    (pages : List (List EventWithId))
    (frags frags' notFrags notFrags' : List Pattern)
    (fields fields' notFields : List (String × List Pattern))
    (hf : frags.Perm frags') (hnf : notFrags.Perm notFrags')
    (hfl : fields.Perm fields') :
    FilterEventsStream extract pages frags notFrags fields notFields =
      FilterEventsStream extract pages frags' notFrags' fields' notFields := by
  have hinc : ∀ evt : EventWithId,
      shouldIncludeEvent extract evt frags notFrags fields notFields =
        shouldIncludeEvent extract evt frags' notFrags' fields' notFields := by
    intro evt
    have h1 : fragsPass (strToLower evt.raw) frags =
        fragsPass (strToLower evt.raw) frags' := by
      rw [fragsPass_eq_all, fragsPass_eq_all]
      exact all_perm_eq _ hf
    have h2 : notFragsPass (strToLower evt.raw) notFrags =
        notFragsPass (strToLower evt.raw) notFrags' := by
      rw [notFragsPass_eq_all, notFragsPass_eq_all]
      exact all_perm_eq _ hnf
    have h3 : ∀ f : Fields, fieldsPass f fields = fieldsPass f fields' := by
      intro f
      apply bool_eq_of_iff
      rw [fieldsPass_iff, fieldsPass_iff]
      exact ⟨fun H c hc => H c (hfl.mem_iff.mpr hc),
        fun H c hc => H c (hfl.mem_iff.mp hc)⟩
    simp only [shouldIncludeEvent]
    rw [h1, h2, h3]
  simp only [FilterEventsStream]
  congr 1
  funext page
  congr 1
  funext evt
  rw [hinc evt]

/-- C6 witness: swapping two required-fragment patterns leaves the output
unchanged on a concrete page. -/
theorem FilterEventsStream_order_invariance_witness :
    FilterEventsStream (fun _ => []) [[⟨1, "srcA", 0, "log"⟩]]
        [fun s => s == "log", fun _ => true] [] [] [] =
      FilterEventsStream (fun _ => []) [[⟨1, "srcA", 0, "log"⟩]]
        [fun _ => true, fun s => s == "log"] [] [] [] :=
  FilterEventsStream_order_invariance (fun _ => []) [[⟨1, "srcA", 0, "log"⟩]]
    _ _ _ _ _ _ _ (List.Perm.swap _ _ _) (List.Perm.refl _) (List.Perm.refl _)

/-! ## Claim C7 -/

/-- The flushing goroutine keeps its buffer below the flush threshold
between rounds, from any state already below it. -/
theorem pubFold_accumulated_lt (ms : List PubMsg) :
    ∀ st : PubState, st.accumulated.length < 1000 →
      (ms.foldl pubStep st).accumulated.length < 1000 := by
  induction ms with
  | nil => intro st h; exact h
  | cons m rest ih =>
      intro st h
      rw [List.foldl_cons]
      apply ih
      cases m with
      | tick =>
          by_cases he : st.accumulated.isEmpty
          · simp [pubStep, he, h]
          · simp [pubStep, he]
      | recv e =>
          simp only [pubStep]
          by_cases hl : 1000 ≤ (st.accumulated ++ [e]).length
          · rw [if_pos hl]
            simp
          · rw [if_neg hl]
            simp only [List.length_append, List.length_singleton] at hl ⊢
            omega

/-- Receiving fewer events than fit in the buffer only accumulates: no
flush happens and the timer is untouched. -/
theorem pubFold_recvs_accumulate (events : List Event) :
    ∀ st : PubState, st.accumulated.length + events.length < 1000 →
      (events.map PubMsg.recv).foldl pubStep st =
        ⟨st.accumulated ++ events, st.flushes, st.timerResets⟩ := by
  induction events with
  | nil => intro st _; simp
  | cons e rest ih =>
      intro st h
      simp only [List.map_cons, List.foldl_cons]
      have hlt : ¬ 1000 ≤ (st.accumulated ++ [e]).length := by
        simp only [List.length_append, List.length_singleton]
        simp only [List.length_cons] at h
        omega
      simp only [pubStep, hlt, if_false]
      rw [ih ⟨st.accumulated ++ [e], st.flushes, st.timerResets⟩ (by
        simp only [List.length_append, List.length_singleton]
        simp only [List.length_cons] at h
        omega)]
      simp [List.append_assoc]

/-- C7: the publisher's flush discipline.  (1) Starting from the initial
state, the buffer always holds fewer than 1000 events between rounds, so it
never accumulates beyond 1000.  (2) When an arriving event brings the
buffer to 1000, it is flushed immediately — all 1000 events in one batch —
and the timer is re-armed.  (3) When the timer fires with a non-empty
buffer, everything accumulated (even a single event) is flushed and the
timer restarts.  (4) Fewer than 1000 events arriving before the timer fires
are not flushed early, and (5) are flushed exactly once, as one batch, when
the timer fires. -/
theorem BatchedRepositoryPublisher_flush_discipline :
    (∀ ms : List PubMsg, (pubRun ms).accumulated.length < 1000) ∧
    (∀ (st : PubState) (e : Event), st.accumulated.length = 999 →
      pubStep st (.recv e) =
        ⟨[], st.flushes ++ [st.accumulated ++ [e]], st.timerResets + 1⟩) ∧
    (∀ st : PubState, st.accumulated ≠ [] →
      pubStep st .tick = ⟨[], st.flushes ++ [st.accumulated], st.timerResets + 1⟩) ∧
    (∀ events : List Event, events.length < 1000 →
      pubRun (events.map PubMsg.recv) = ⟨events, [], 1⟩) ∧
    (∀ events : List Event, events ≠ [] → events.length < 1000 →
      pubRun (events.map PubMsg.recv ++ [.tick]) = ⟨[], [events], 2⟩) := by
  have hrecv : ∀ events : List Event, events.length < 1000 →
      pubRun (events.map PubMsg.recv) = ⟨events, [], 1⟩ := by
    intro events h
    unfold pubRun
    rw [pubFold_recvs_accumulate events pubInit (by simpa [pubInit] using h)]
    simp [pubInit]
  refine ⟨?_, ?_, ?_, hrecv, ?_⟩
  · intro ms
    exact pubFold_accumulated_lt ms pubInit (by simp [pubInit])
  · intro st e h
    have hge : 1000 ≤ (st.accumulated ++ [e]).length := by
      simp [List.length_append, h]
    simp only [pubStep]
    rw [if_pos hge]
  · intro st h
    have : ¬ st.accumulated.isEmpty := by
      simpa [List.isEmpty_iff] using h
    simp [pubStep, this]
  · intro events hne h
    unfold pubRun
    rw [List.foldl_append]
    have := hrecv events h
    unfold pubRun at this
    rw [this]
    have hemp : ¬ (⟨events, [], 1⟩ : PubState).accumulated.isEmpty := by
      simpa [List.isEmpty_iff] using hne
    simp [pubStep, hemp]

/-- C7 witness: two events submitted within the second are flushed exactly
once, as one batch, when the timer fires. -/
theorem BatchedRepositoryPublisher_flush_discipline_witness :
    pubRun ([⟨"a", "h", "s", 0, 1⟩, ⟨"b", "h", "s", 1, 2⟩].map PubMsg.recv ++
      [PubMsg.tick]) = ⟨[], [[⟨"a", "h", "s", 0, 1⟩, ⟨"b", "h", "s", 1, 2⟩]], 2⟩ :=
  BatchedRepositoryPublisher_flush_discipline.2.2.2.2
    [⟨"a", "h", "s", 0, 1⟩, ⟨"b", "h", "s", 1, 2⟩] (by decide) (by decide)

/-! ## Claim C3 -/

set_option maxRecDepth 8192 in
/-- C3, counterexample: with no sources, notSources or fragments the
generated statement still carries a full-text MATCH constraint — with an
empty match expression — so the scan is not left unrestricted by a match
clause as the claim states. -/
theorem buildStmt_empty_constraints_still_has_match :
    buildMatchString [] [] [] = "" ∧
    containsStr (buildStmt 1 [] [] [] none none 0) "EventRaws MATCH ''" :=
  ⟨rfl,
    ⟨"SELECT e.id, e.source, e.timestamp, r.raw FROM Events e INNER JOIN EventRaws r ON r.rowid = e.id WHERE e.id < 1 AND ",
     " ORDER BY e.timestamp DESC, e.id DESC LIMIT 1000 OFFSET 0;", by decide⟩⟩

/-- C3 (amended): every per-page statement contains the clause
`AND EventRaws MATCH '<matchString>'` — even with no sources, notSources or
fragments, in which case the match expression is empty — and the match
string has exactly the shape of `specMatchString`: the space-separated
`source:` terms and `NOT source:` terms, with an opening parenthesis exactly
when sources exist and a closing one after the last source term, followed by
` AND ` whenever any source constraint exists, then the space-separated
`raw:` terms in parentheses. -/
theorem buildMatchString_shape :
    (∀ (maxID : Int) (sources notSources fragments : List String)
        (startTime endTime : Option Int) (offset : Nat),
      containsStr
        (buildStmt maxID sources notSources fragments startTime endTime offset)
        (" AND EventRaws MATCH '" ++
          buildMatchString sources notSources fragments ++ "'")) ∧
    (∀ sources notSources fragments,
      buildMatchString sources notSources fragments =
        specMatchString sources notSources fragments) := by
  constructor
  · intro maxID sources notSources fragments startTime endTime offset
    refine ⟨"SELECT e.id, e.source, e.timestamp, r.raw FROM Events e INNER JOIN EventRaws r ON r.rowid = e.id WHERE e.id < " ++
      toString maxID ++
      (match startTime with
       | none => ""
       | some t => " AND e.timestamp >= '" ++ toString t ++ "'") ++
      (match endTime with
       | none => ""
       | some t => " AND e.timestamp <= '" ++ toString t ++ "'"),
      " ORDER BY e.timestamp DESC, e.id DESC LIMIT " ++
        toString filterStreamPageSize ++ " OFFSET " ++ toString offset ++ ";",
      ?_⟩
    simp only [buildStmt, String.append_assoc]
  · intro sources notSources fragments
    simp only [buildMatchString, specMatchString]
    rw [← src_group_eq sources notSources, ← frag_group_eq fragments]
    simp only [String.append_assoc]

/-! ## Store lemmas -/

theorem maxIdAcc_cons (r : StoreRow) (rows : List StoreRow) :
    maxIdAcc (r :: rows) = max r.id (maxIdAcc rows) := rfl

theorem maxIdAcc_nonneg (rows : List StoreRow) : 0 ≤ maxIdAcc rows := by
  induction rows with
  | nil => exact le_refl 0
  | cons r rest ih => rw [maxIdAcc_cons]; exact le_trans ih (le_max_right _ _)

theorem le_maxIdAcc_of_mem {r : StoreRow} {rows : List StoreRow}
    (h : r ∈ rows) : r.id ≤ maxIdAcc rows := by
  induction rows with
  | nil => cases h
  | cons a rest ih =>
      rw [maxIdAcc_cons]
      rcases List.mem_cons.mp h with h1 | h2
      · rw [h1]; exact le_max_left _ _
      · exact le_trans (ih h2) (le_max_right _ _)

theorem maxIdAcc_append (a b : List StoreRow) :
    maxIdAcc (a ++ b) = max (maxIdAcc a) (maxIdAcc b) := by
  induction a with
  | nil =>
      simp only [List.nil_append]
      exact (max_eq_right (maxIdAcc_nonneg b)).symm
  | cons r rest ih =>
      simp only [List.cons_append, maxIdAcc_cons, ih, max_assoc]

theorem newRowId_pos (rows : List StoreRow) : 0 < newRowId rows := by
  unfold newRowId
  have := maxIdAcc_nonneg rows
  omega

theorem isDup_append (a b : List StoreRow) (e : Event) :
    isDup (a ++ b) e = (isDup a e || isDup b e) := by
  simp [isDup, List.any_append]

/-- On a healthy database the `AddBatch` loop is the pure accumulator
`addPure`. -/
theorem addLoop_noFail (events : List Event) :
    ∀ (base : List StoreRow) (i : Nat) (pending : List StoreRow)
      (ids : List Int) (dups : List (String × Int)),
      addLoop base (fun _ => false) (fun _ => false) i
          ⟨pending, ids, dups⟩ events =
        .ok (addPure base pending ids dups events) := by
  induction events with
  | nil => intro base i p ids d; rfl
  | cons e rest ih =>
      intro base i p ids d
      simp only [addLoop, addPure]
      by_cases hd : isDup (base ++ p) e = true
      · rw [if_pos hd, if_pos hd]
        exact ih base (i + 1) p (ids ++ [0]) (bumpDup d e.source)
      · rw [if_neg hd, if_neg hd]
        simp only [Bool.false_eq_true, if_false]
        exact ih base (i + 1) _ _ d

/-- Shape of one `addPure` run: the identity slice grows by one entry per
event (`0` for skipped duplicates, a positive id otherwise), and the pending
rows grow by exactly one row per non-zero identity. -/
theorem addPure_shape (base : List StoreRow) (evts : List Event) :
    ∀ (p : List StoreRow) (ids : List Int) (d : List (String × Int)),
      ∃ tail rowsTail,
        (addPure base p ids d evts).ids = ids ++ tail ∧
        (addPure base p ids d evts).pending = p ++ rowsTail ∧
        tail.length = evts.length ∧
        rowsTail.length = (tail.filter (fun x => x != 0)).length ∧
        (∀ x ∈ tail, x = 0 ∨ 0 < x) := by
  induction evts with
  | nil =>
      intro p ids d
      exact ⟨[], [], by simp [addPure], by simp [addPure], rfl, rfl, by simp⟩
  | cons e rest ih =>
      intro p ids d
      by_cases hd : isDup (base ++ p) e = true
      · obtain ⟨tail, rowsTail, h1, h2, h3, h4, h5⟩ :=
          ih p (ids ++ [0]) (bumpDup d e.source)
        refine ⟨0 :: tail, rowsTail, ?_, ?_, by simp [h3], by simp [h4], ?_⟩
        · rw [addPure, if_pos hd, h1]
          simp
        · rw [addPure, if_pos hd, h2]
        · intro x hx
          rcases List.mem_cons.mp hx with h | h
          · exact Or.inl h
          · exact h5 x h
      · obtain ⟨tail, rowsTail, h1, h2, h3, h4, h5⟩ :=
          ih (p ++ [⟨newRowId (base ++ p), e.source, e.timestamp, e.offset,
            e.raw⟩]) (ids ++ [newRowId (base ++ p)]) d
        have hpos : 0 < newRowId (base ++ p) := newRowId_pos _
        refine ⟨newRowId (base ++ p) :: tail,
          ⟨newRowId (base ++ p), e.source, e.timestamp, e.offset, e.raw⟩ ::
            rowsTail, ?_, ?_, by simp [h3], ?_, ?_⟩
        · rw [addPure, if_neg hd, h1]
          simp
        · rw [addPure, if_neg hd, h2]
          simp
        · have : (newRowId (base ++ p) :: tail).filter (fun x => x != 0) =
              newRowId (base ++ p) :: tail.filter (fun x => x != 0) := by
            rw [List.filter_cons_of_pos]
            simp only [bne_iff_ne, ne_eq]
            omega
          rw [this]
          simp [h4]
        · intro x hx
          rcases List.mem_cons.mp hx with h | h
          · exact Or.inr (h ▸ hpos)
          · exact h5 x h

theorem bumpDup_lookup_self (d : List (String × Int)) (src : String) :
    (bumpDup d src).lookup src =
      some (match d.lookup src with | none => 1 | some v => v + 1) := by
  induction d with
  | nil => simp [bumpDup, List.lookup]
  | cons kv rest ih =>
      obtain ⟨k, v⟩ := kv
      by_cases hk : k = src
      · subst hk
        simp [bumpDup, List.lookup]
      · have hk3 : (src == k) = false :=
          beq_eq_false_iff_ne.mpr (fun hh => hk hh.symm)
        simp [bumpDup, List.lookup, hk, hk3, ih]

theorem bumpDup_lookup_other (d : List (String × Int)) (src src' : String)
    (h : src' ≠ src) : (bumpDup d src).lookup src' = d.lookup src' := by
  have hbeq : (src' == src) = false := beq_eq_false_iff_ne.mpr h
  induction d with
  | nil => simp [bumpDup, List.lookup, hbeq]
  | cons kv rest ih =>
      obtain ⟨k, v⟩ := kv
      by_cases hk : k = src
      · subst hk
        simp [bumpDup, List.lookup, hbeq]
      · simp [bumpDup, List.lookup, hk, ih]

theorem bumpDup_keys (d : List (String × Int)) (src : String) :
    (bumpDup d src).map Prod.fst =
      if src ∈ d.map Prod.fst then d.map Prod.fst
      else d.map Prod.fst ++ [src] := by
  induction d with
  | nil => simp [bumpDup]
  | cons kv rest ih =>
      obtain ⟨k, v⟩ := kv
      by_cases hk : k = src
      · subst hk
        simp [bumpDup]
      · have hne : src ≠ k := fun hh => hk hh.symm
        simp only [bumpDup, if_neg hk, List.map_cons, ih]
        by_cases hm : src ∈ rest.map Prod.fst
        · rw [if_pos hm, if_pos (by simp [List.mem_cons, hm])]
        · rw [if_neg hm, if_neg (by simp [List.mem_cons, hne, hm])]
          simp

theorem bumpDup_keys_nodup (d : List (String × Int)) (src : String)
    (h : (d.map Prod.fst).Nodup) : ((bumpDup d src).map Prod.fst).Nodup := by
  rw [bumpDup_keys]
  by_cases hm : src ∈ d.map Prod.fst
  · rw [if_pos hm]; exact h
  · rw [if_neg hm]
    rw [List.nodup_append]
    exact ⟨h, List.nodup_singleton _, by
      intro x hx hx'
      rw [List.mem_singleton] at hx'
      subst hx'
      exact hm hx⟩

theorem getElem?_append_left {α : Type} (l₁ l₂ : List α) (n : Nat)
    (h : n < l₁.length) : (l₁ ++ l₂)[n]? = l₁[n]? := by
  rw [List.getElem?_append, if_pos h]

theorem isDup_singleton_false (r : StoreRow) (ev : Event)
    (h : ¬ (r.source = ev.source ∧ r.timestamp = ev.timestamp ∧
      r.offset = ev.offset)) : isDup [r] ev = false := by
  rw [← Bool.not_eq_true]
  intro hb
  apply h
  simp [isDup] at hb
  exact ⟨hb.1.1, hb.1.2, hb.2⟩

theorem bumpDup_values (d : List (String × Int)) (src : String)
    (h : ∀ kv ∈ d, 1 ≤ kv.2) : ∀ kv ∈ bumpDup d src, 1 ≤ kv.2 := by
  induction d with
  | nil =>
      intro kv hkv
      rw [bumpDup, List.mem_singleton] at hkv
      subst hkv
      exact le_refl 1
  | cons hd rest ih =>
      obtain ⟨k, v⟩ := hd
      intro kv hkv
      by_cases hk : k = src
      · subst hk
        rw [bumpDup, if_pos rfl] at hkv
        rcases List.mem_cons.mp hkv with h1 | h2
        · subst h1
          have := h (k, v) (List.mem_cons_self _ _)
          simp only at this ⊢
          omega
        · exact h kv (List.mem_cons_of_mem _ h2)
      · rw [bumpDup, if_neg hk] at hkv
        rcases List.mem_cons.mp hkv with h1 | h2
        · subst h1
          exact h (k, v) (List.mem_cons_self _ _)
        · exact ih (fun kv hkv => h kv (List.mem_cons_of_mem _ hkv)) kv h2

theorem lookup_mem (d : List (String × Int)) (src : String) (v : Int)
    (h : d.lookup src = some v) : (src, v) ∈ d := by
  induction d with
  | nil => cases h
  | cons kv rest ih =>
      obtain ⟨k, w⟩ := kv
      by_cases hk : src = k
      · subst hk
        simp only [List.lookup, beq_self_eq_true] at h
        cases h
        exact List.mem_cons_self _ _
      · have hbeq : (src == k) = false := beq_eq_false_iff_ne.mpr hk
        simp only [List.lookup, hbeq] at h
        exact List.mem_cons_of_mem _ (ih h)

/-- Across one `addPure` run the duplicate counters only grow: keys stay
duplicate-free and an existing counter never shrinks. -/
theorem addPure_dups (base : List StoreRow) (evts : List Event) :
    ∀ (p : List StoreRow) (ids : List Int) (d : List (String × Int)),
      ((d.map Prod.fst).Nodup →
        ((addPure base p ids d evts).dups.map Prod.fst).Nodup) ∧
      (∀ src n, d.lookup src = some n →
        ∃ m, (addPure base p ids d evts).dups.lookup src = some m ∧ n ≤ m) := by
  induction evts with
  | nil => intro p ids d; exact ⟨fun h => h, fun src n h => ⟨n, h, le_refl n⟩⟩
  | cons e rest ih =>
      intro p ids d
      by_cases hd : isDup (base ++ p) e = true
      · simp only [addPure]
        rw [if_pos hd]
        constructor
        · intro hnd
          exact (ih p (ids ++ [0]) (bumpDup d e.source)).1
            (bumpDup_keys_nodup d e.source hnd)
        · intro src n hlk
          by_cases hsrc : src = e.source
          · subst hsrc
            have hb := bumpDup_lookup_self d e.source
            rw [hlk] at hb
            obtain ⟨m, hm, hnm⟩ :=
              (ih p (ids ++ [0]) (bumpDup d e.source)).2 e.source (n + 1) hb
            exact ⟨m, hm, by omega⟩
          · have hb := bumpDup_lookup_other d e.source src hsrc
            rw [hlk] at hb
            exact (ih p (ids ++ [0]) (bumpDup d e.source)).2 src n hb
      · simp only [addPure]
        rw [if_neg hd]
        exact ih _ _ d

/-- A duplicate at position `i` of the remaining events leaves the `0`
sentinel at the corresponding output position and a positive skip counter
for its source. -/
theorem addPure_dup_skip (base : List StoreRow) (evts : List Event) :
    ∀ (p : List StoreRow) (ids : List Int) (d : List (String × Int)) (i : Nat)
      (hi : i < evts.length),
      (∀ kv ∈ d, 1 ≤ kv.2) →
      isDup (base ++ p) (evts.get ⟨i, hi⟩) = true →
      (addPure base p ids d evts).ids[ids.length + i]? = some 0 ∧
      ∃ n, (addPure base p ids d evts).dups.lookup
          (evts.get ⟨i, hi⟩).source = some n ∧ 1 ≤ n := by
  induction evts with
  | nil => intro p ids d i hi; exact absurd hi (Nat.not_lt_zero i)
  | cons e rest ih =>
      intro p ids d i hi hval hdup
      cases i with
      | zero =>
          have hga : (e :: rest).get ⟨0, hi⟩ = e := rfl
          rw [hga] at hdup ⊢
          simp only [addPure]
          rw [if_pos hdup]
          constructor
          · obtain ⟨tail, rowsTail, h1, _, _, _, _⟩ :=
              addPure_shape base rest p (ids ++ [0]) (bumpDup d e.source)
            rw [h1, Nat.add_zero,
              getElem?_append_left _ _ _ (by simp),
              List.getElem?_concat_length]
          · have hb := bumpDup_lookup_self d e.source
            have hpos : 1 ≤ (match d.lookup e.source with
                | none => 1 | some v => v + 1) := by
              cases hc : d.lookup e.source with
              | none => exact le_refl 1
              | some v =>
                  show (1 : Int) ≤ v + 1
                  have := hval (e.source, v) (lookup_mem d e.source v hc)
                  simp only at this
                  omega
            obtain ⟨m, hm, hnm⟩ :=
              (addPure_dups base rest p (ids ++ [0])
                (bumpDup d e.source)).2 e.source _ hb
            exact ⟨m, hm, le_trans hpos hnm⟩
      | succ j =>
          have hj : j < rest.length := by
            simpa using Nat.lt_of_succ_lt_succ hi
          have hget : (e :: rest).get ⟨j + 1, hi⟩ = rest.get ⟨j, hj⟩ := rfl
          rw [hget] at hdup ⊢
          simp only [addPure]
          by_cases hd : isDup (base ++ p) e = true
          · rw [if_pos hd]
            have := ih p (ids ++ [0]) (bumpDup d e.source) j hj
              (bumpDup_values d e.source hval) hdup
            refine ⟨?_, this.2⟩
            have h0 := this.1
            rw [show ids.length + (j + 1) = (ids ++ [0]).length + j by
              simp [List.length_append]; omega]
            exact h0
          · rw [if_neg hd]
            have hmono : isDup (base ++ (p ++ [⟨newRowId (base ++ p), e.source,
                e.timestamp, e.offset, e.raw⟩])) (rest.get ⟨j, hj⟩) = true := by
              rw [← List.append_assoc, isDup_append, hdup]
              rfl
            have := ih (p ++ [⟨newRowId (base ++ p), e.source, e.timestamp,
              e.offset, e.raw⟩]) (ids ++ [newRowId (base ++ p)]) d j hj hval hmono
            refine ⟨?_, this.2⟩
            have h0 := this.1
            rw [show ids.length + (j + 1) = (ids ++ [newRowId (base ++ p)]).length + j by
              simp [List.length_append]; omega]
            exact h0

/-- A batch event that conflicts neither with the visible rows nor with any
other batch event is inserted: its output position carries a fresh positive
identity and a matching row joins the pending rows. -/
theorem addPure_novel_insert (base : List StoreRow) (evts : List Event) :
    ∀ (p : List StoreRow) (ids : List Int) (d : List (String × Int)) (j : Nat)
      (hj : j < evts.length),
      isDup (base ++ p) (evts.get ⟨j, hj⟩) = false →
      (∀ (k : Nat) (hk : k < evts.length), k ≠ j →
        ¬ sameTriple (evts.get ⟨k, hk⟩) (evts.get ⟨j, hj⟩)) →
      ∃ id, (addPure base p ids d evts).ids[ids.length + j]? = some id ∧
        0 < id ∧
        ∃ r ∈ (addPure base p ids d evts).pending, r.id = id ∧
          r.source = (evts.get ⟨j, hj⟩).source ∧
          r.timestamp = (evts.get ⟨j, hj⟩).timestamp ∧
          r.offset = (evts.get ⟨j, hj⟩).offset ∧
          r.raw = (evts.get ⟨j, hj⟩).raw := by
  induction evts with
  | nil => intro p ids d j hj; exact absurd hj (Nat.not_lt_zero j)
  | cons e rest ih =>
      intro p ids d j hj hnov hpair
      cases j with
      | zero =>
          have hga : (e :: rest).get ⟨0, hj⟩ = e := rfl
          rw [hga] at hnov ⊢
          simp only [addPure]
          rw [if_neg (by rw [hnov]; exact Bool.false_ne_true)]
          obtain ⟨tail, rowsTail, h1, h2, _, _, _⟩ :=
            addPure_shape base rest
              (p ++ [⟨newRowId (base ++ p), e.source, e.timestamp, e.offset,
                e.raw⟩])
              (ids ++ [newRowId (base ++ p)]) d
          refine ⟨newRowId (base ++ p), ?_, newRowId_pos _,
            ⟨newRowId (base ++ p), e.source, e.timestamp, e.offset, e.raw⟩,
            ?_, rfl, rfl, rfl, rfl, rfl⟩
          · rw [h1, Nat.add_zero,
              getElem?_append_left _ _ _ (by simp),
              List.getElem?_concat_length]
          · rw [h2]
            exact List.mem_append_left _ (List.mem_append_right _
              (List.mem_singleton_self _))
      | succ jj =>
          have hj2 : jj < rest.length := by
            simpa using Nat.lt_of_succ_lt_succ hj
          have hget : (e :: rest).get ⟨jj + 1, hj⟩ = rest.get ⟨jj, hj2⟩ := rfl
          rw [hget] at hnov ⊢
          have hpair2 : ∀ (k : Nat) (hk : k < rest.length), k ≠ jj →
              ¬ sameTriple (rest.get ⟨k, hk⟩) (rest.get ⟨jj, hj2⟩) := by
            intro k hk hkj
            have := hpair (k + 1) (Nat.succ_lt_succ hk) (by omega)
            rw [show (e :: rest).get ⟨k + 1, Nat.succ_lt_succ hk⟩ =
              rest.get ⟨k, hk⟩ from rfl, hget] at this
            exact this
          simp only [addPure]
          by_cases hd : isDup (base ++ p) e = true
          · rw [if_pos hd]
            have := ih p (ids ++ [0]) (bumpDup d e.source) jj hj2 hnov hpair2
            obtain ⟨id, hid, hpos, hrow⟩ := this
            refine ⟨id, ?_, hpos, hrow⟩
            rw [show ids.length + (jj + 1) = (ids ++ [0]).length + jj by
              simp [List.length_append]; omega]
            exact hid
          · rw [if_neg hd]
            have hsingle : isDup [⟨newRowId (base ++ p), e.source, e.timestamp,
                e.offset, e.raw⟩] (rest.get ⟨jj, hj2⟩) = false := by
              apply isDup_singleton_false
              have := hpair 0 (Nat.succ_pos _) (by omega)
              rw [show (e :: rest).get ⟨0, Nat.succ_pos _⟩ = e from rfl,
                hget] at this
              simpa [sameTriple] using this
            have hnov2 : isDup (base ++ (p ++ [⟨newRowId (base ++ p), e.source,
                e.timestamp, e.offset, e.raw⟩])) (rest.get ⟨jj, hj2⟩) = false := by
              rw [← List.append_assoc, isDup_append, hnov, hsingle]
              rfl
            have := ih
              (p ++ [⟨newRowId (base ++ p), e.source, e.timestamp, e.offset,
                e.raw⟩])
              (ids ++ [newRowId (base ++ p)]) d jj hj2 hnov2 hpair2
            obtain ⟨id, hid, hpos, hrow⟩ := this
            refine ⟨id, ?_, hpos, hrow⟩
            rw [show ids.length + (jj + 1) =
                (ids ++ [newRowId (base ++ p)]).length + jj by
              simp [List.length_append]; omega]
            exact hid

/-! ## Claim C5 -/

/-- C5: a batch event whose `(source, timestamp, offset)` triple already
exists in the store is skipped: the call still commits without error, the
returned identity slice has one entry per batch event with the `0` sentinel
at the duplicate's position, the store grows by exactly one row per
non-zero identity (so the duplicate adds nothing), the skips are counted
once per source (duplicate-free keys, the duplicate's source with a positive
count), and batch events that conflict with nothing are still inserted with
fresh positive identities. -/
theorem AddBatch_duplicate_skipped (s : Store) (B : List Event) (i : Nat)
    (hi : i < B.length) (hdup : isDup s.rows (B.get ⟨i, hi⟩) = true) :
    ∃ l, (AddBatch s B).err = none ∧
      (AddBatch s B).txEnd = TxEnd.committed ∧
      (AddBatch s B).ids = some l ∧
      l.length = B.length ∧
      l[i]? = some 0 ∧
      (AddBatch s B).store.rows.length =
        s.rows.length + (l.filter (fun x => x != 0)).length ∧
      ((AddBatch s B).loggedDups.map Prod.fst).Nodup ∧
      (∃ n, (AddBatch s B).loggedDups.lookup (B.get ⟨i, hi⟩).source = some n ∧
        1 ≤ n) ∧
      (∀ (j : Nat) (hj : j < B.length),
        isDup s.rows (B.get ⟨j, hj⟩) = false →
        (∀ (k : Nat) (hk : k < B.length), k ≠ j →
          ¬ sameTriple (B.get ⟨k, hk⟩) (B.get ⟨j, hj⟩)) →
        ∃ id, l[j]? = some id ∧ 0 < id ∧
          ∃ r ∈ (AddBatch s B).store.rows, r.id = id ∧
            r.source = (B.get ⟨j, hj⟩).source ∧
            r.timestamp = (B.get ⟨j, hj⟩).timestamp ∧
            r.offset = (B.get ⟨j, hj⟩).offset ∧
            r.raw = (B.get ⟨j, hj⟩).raw) := by
  have hrun : AddBatch s B = ⟨none, some (addPure s.rows [] [] [] B).ids,
      ⟨s.rows ++ (addPure s.rows [] [] [] B).pending⟩, TxEnd.committed,
      (addPure s.rows [] [] [] B).dups⟩ := by
    unfold AddBatch AddBatchFull
    rw [if_neg Bool.false_ne_true, addLoop_noFail B s.rows 0 [] [] []]
    rfl
  obtain ⟨tail, rowsTail, hids, hpend, hlen, hcount, _⟩ :=
    addPure_shape s.rows B [] [] []
  have hskip := addPure_dup_skip s.rows B [] [] [] i hi (by simp)
    (by rw [List.append_nil]; exact hdup)
  refine ⟨(addPure s.rows [] [] [] B).ids, ?_, ?_, ?_, ?_, ?_, ?_, ?_, ?_, ?_⟩
  · rw [hrun]
  · rw [hrun]
  · rw [hrun]
  · rw [hids]
    simp [hlen]
  · simpa using hskip.1
  · rw [hrun]
    simp only
    rw [hpend, hids]
    simp only [List.nil_append, List.length_append]
    rw [hcount]
  · rw [hrun]
    exact (addPure_dups s.rows B [] [] []).1 (by simp)
  · rw [hrun]
    exact hskip.2
  · intro j hj hnov hpair
    obtain ⟨id, hid, hpos, r, hr, hrid, h2, h3, h4, h5⟩ :=
      addPure_novel_insert s.rows B [] [] [] j hj
        (by rw [List.append_nil]; exact hnov) hpair
    refine ⟨id, by simpa using hid, hpos, r, ?_, hrid, h2, h3, h4, h5⟩
    rw [hrun]
    simp only
    exact List.mem_append_right _ hr

/-- C5 witness: re-submitting the stored triple `(srcA, 5, 0)` alongside a
novel event yields a two-entry identity slice with the `0` sentinel first. -/
theorem AddBatch_duplicate_skipped_witness :
    ∃ l, (AddBatch ⟨[⟨1, "srcA", 5, 0, "x"⟩]⟩
        [⟨"x", "h", "srcA", 0, 5⟩, ⟨"y", "h", "srcB", 7, 9⟩]).ids = some l ∧
      l[0]? = some 0 ∧ l.length = 2 := by
  obtain ⟨l, _, _, h3, h4, h5, _⟩ := AddBatch_duplicate_skipped
    ⟨[⟨1, "srcA", 5, 0, "x"⟩]⟩
    [⟨"x", "h", "srcA", 0, 5⟩, ⟨"y", "h", "srcB", 7, 9⟩]
    0 (by decide) (by decide)
  exact ⟨l, h3, h5, by rw [h4]; rfl⟩

/-! ## Pagination lemmas and claim C9 -/

theorem getLast?_cons_of_ne_nil {α : Type} (a : α) (l : List α) (h : l ≠ []) :
    (a :: l).getLast? = l.getLast? := by
  cases l with
  | nil => exact absurd rfl h
  | cons b bs => simp [List.getLast?_cons_cons]

/-- The value of the paging loop does not depend on the fuel, as long as
there is enough of it. -/
theorem pageLoopAux_congr (queryFail : Nat → Bool) :
    ∀ (fuel fuel' k : Nat) (l : List StoreRow), l.length < fuel →
      l.length < fuel' →
      pageLoopAux queryFail fuel k l = pageLoopAux queryFail fuel' k l := by
  intro fuel
  induction fuel with
  | zero => intro fuel' k l h h'; exact absurd h (Nat.not_lt_zero _)
  | succ m ih =>
      intro fuel' k l h h'
      cases fuel' with
      | zero => exact absurd h' (Nat.not_lt_zero _)
      | succ m' =>
          simp only [pageLoopAux]
          by_cases hq : queryFail k = true
          · rw [if_pos hq, if_pos hq]
          · rw [if_neg hq, if_neg hq]
            by_cases hl : l.length < filterStreamPageSize
            · rw [if_pos hl, if_pos hl]
            · rw [if_neg hl, if_neg hl]
              have hps : 0 < filterStreamPageSize := by
                simp [filterStreamPageSize]
              simp only [not_lt] at hl
              congr 1
              apply ih
              · simp only [List.length_drop]; omega
              · simp only [List.length_drop]; omega

/-- The one-step unfolding of the paging loop: exactly the Go `for` body. -/
theorem pageLoop_eq (queryFail : Nat → Bool) (k : Nat) (l : List StoreRow) :
    pageLoop queryFail k l =
      if queryFail k = true then []
      else if l.length < filterStreamPageSize then [l]
      else l.take filterStreamPageSize ::
        pageLoop queryFail (k + 1) (l.drop filterStreamPageSize) := by
  conv_lhs => rw [show pageLoop queryFail k l =
    pageLoopAux queryFail (l.length + 1) k l from rfl]
  simp only [pageLoopAux]
  by_cases hq : queryFail k = true
  · rw [if_pos hq, if_pos hq]
  · rw [if_neg hq, if_neg hq]
    by_cases hl : l.length < filterStreamPageSize
    · rw [if_pos hl, if_pos hl]
    · rw [if_neg hl, if_neg hl]
      have hps : 0 < filterStreamPageSize := by simp [filterStreamPageSize]
      simp only [not_lt] at hl
      congr 1
      rw [show pageLoop queryFail (k + 1) (l.drop filterStreamPageSize) =
        pageLoopAux queryFail ((l.drop filterStreamPageSize).length + 1) (k + 1)
          (l.drop filterStreamPageSize) from rfl]
      apply pageLoopAux_congr
      · simp only [List.length_drop]; omega
      · simp only [List.length_drop]; omega

/-- Without query errors, the pages deliver exactly the result set. -/
theorem pageLoop_noFail_join (l : List StoreRow) (k : Nat) :
    (pageLoop (fun _ => false) k l).flatten = l := by
  rw [pageLoop_eq]
  simp only [Bool.false_eq_true, if_false]
  by_cases hl : l.length < filterStreamPageSize
  · rw [if_pos hl]
    simp
  · rw [if_neg hl]
    rw [List.flatten_cons,
      pageLoop_noFail_join (l.drop filterStreamPageSize) (k + 1)]
    exact List.take_append_drop _ l
termination_by l.length
decreasing_by
  simp only [List.length_drop]
  have hps : 0 < filterStreamPageSize := by simp [filterStreamPageSize]
  simp only [not_lt] at hl
  omega

/-- Without query errors, every page but the last holds exactly the page
size and the last strictly fewer: the loop stops exactly at the first short
page. -/
theorem pageLoop_noFail_pages (l : List StoreRow) (k : Nat) :
    (∀ p ∈ (pageLoop (fun _ => false) k l).dropLast,
      p.length = filterStreamPageSize) ∧
    ∃ last, (pageLoop (fun _ => false) k l).getLast? = some last ∧
      last.length < filterStreamPageSize := by
  rw [pageLoop_eq]
  simp only [Bool.false_eq_true, if_false]
  by_cases hl : l.length < filterStreamPageSize
  · rw [if_pos hl]
    exact ⟨by simp, l, List.getLast?_singleton l, hl⟩
  · rw [if_neg hl]
    obtain ⟨ih1, last, ih2, ih3⟩ :=
      pageLoop_noFail_pages (l.drop filterStreamPageSize) (k + 1)
    have hne : pageLoop (fun _ => false) (k + 1)
        (l.drop filterStreamPageSize) ≠ [] := by
      intro hcon
      rw [hcon] at ih2
      cases ih2
    constructor
    · intro p hp
      rw [List.dropLast_cons_of_ne_nil hne] at hp
      rcases List.mem_cons.mp hp with h1 | h2
      · subst h1
        rw [List.length_take]
        simp only [not_lt] at hl
        omega
      · exact ih1 p h2
    · refine ⟨last, ?_, ih3⟩
      rw [getLast?_cons_of_ne_nil _ _ hne]
      exact ih2
termination_by l.length
decreasing_by
  simp only [List.length_drop]
  have hps : 0 < filterStreamPageSize := by simp [filterStreamPageSize]
  simp only [not_lt] at hl
  omega

/-- A failing page query closes the stream where it happens: whatever was
delivered is a prefix of the healthy stream, and nothing resembling an
error is delivered in the pages. -/
theorem pageLoop_prefix (queryFail : Nat → Bool) (k : Nat) (l : List StoreRow) :
    pageLoop queryFail k l <+: pageLoop (fun _ => false) k l := by
  rw [pageLoop_eq queryFail, pageLoop_eq (fun _ => false)]
  simp only [Bool.false_eq_true, if_false]
  by_cases hq : queryFail k = true
  · rw [if_pos hq]
    exact List.nil_prefix
  · rw [if_neg hq]
    by_cases hl : l.length < filterStreamPageSize
    · rw [if_pos hl, if_pos hl]
    · rw [if_neg hl, if_neg hl]
      exact List.cons_prefix_cons.mpr ⟨rfl,
        pageLoop_prefix queryFail (k + 1) (l.drop filterStreamPageSize)⟩
termination_by l.length
decreasing_by
  simp only [List.length_drop]
  have hps : 0 < filterStreamPageSize := by simp [filterStreamPageSize]
  simp only [not_lt] at hl
  omega

/-- C9: the stream is a finite list of pages; the concatenation of its pages
is the coarse result set in reverse-chronological order; the empty table
makes the `MAX(id)` scan fail and the stream closes with no pages; on a
non-empty table every page before the last holds exactly 1000 rows and the
last strictly fewer — the stream ends exactly at the first short page; and
under any injected per-page query failure the delivered pages form a prefix
of the healthy stream (the error itself is never delivered: pages are the
only values the channel carries). -/
theorem FilterStream_pagination (s : Store) (matchPred : StoreRow → Bool)
    (startTime endTime : Option Int) (queryFail : Nat → Bool) :
    (FilterStream s matchPred startTime endTime).flatten.Pairwise rowLe ∧
    (s.rows = [] → FilterStream s matchPred startTime endTime = []) ∧
    (s.rows ≠ [] →
      (∀ p ∈ (FilterStream s matchPred startTime endTime).dropLast,
        p.length = filterStreamPageSize) ∧
      ∃ last, (FilterStream s matchPred startTime endTime).getLast? =
          some last ∧ last.length < filterStreamPageSize) ∧
    FilterStreamFull s matchPred startTime endTime queryFail <+:
      FilterStream s matchPred startTime endTime := by
  unfold FilterStream FilterStreamFull
  cases hmx : maxIdOpt s with
  | none =>
      have hempty : s.rows = [] := by
        unfold maxIdOpt at hmx
        by_cases h : s.rows.isEmpty
        · exact List.isEmpty_iff.mp h
        · rw [if_neg h] at hmx
          cases hmx
      refine ⟨by simp, fun _ => rfl, fun hne => absurd hempty hne, ?_⟩
      exact List.nil_prefix
  | some maxID =>
      refine ⟨?_, ?_, ?_, ?_⟩
      · rw [pageLoop_noFail_join]
        exact List.sorted_insertionSort rowLe _
      · intro hempty
        unfold maxIdOpt at hmx
        rw [if_pos (by simp [hempty])] at hmx
        cases hmx
      · intro _
        exact pageLoop_noFail_pages _ 0
      · exact pageLoop_prefix queryFail 0 _

/-- C9 witness: on the empty table the stream closes with no pages, and on
a two-row table any failing-query stream is a prefix of the healthy one,
whose single page is short. -/
theorem FilterStream_pagination_witness :
    FilterStream emptyStore (fun _ => true) none none = [] ∧
    (∃ last, (FilterStream ⟨[⟨1, "srcA", 5, 0, "x"⟩, ⟨2, "srcB", 7, 1, "y"⟩]⟩
        (fun _ => true) none none).getLast? = some last ∧
      last.length < filterStreamPageSize) ∧
    FilterStreamFull ⟨[⟨1, "srcA", 5, 0, "x"⟩, ⟨2, "srcB", 7, 1, "y"⟩]⟩
        (fun _ => true) none none (fun k => k == 0) <+:
      FilterStream ⟨[⟨1, "srcA", 5, 0, "x"⟩, ⟨2, "srcB", 7, 1, "y"⟩]⟩
        (fun _ => true) none none :=
  ⟨(FilterStream_pagination emptyStore (fun _ => true) none none
      (fun _ => false)).2.1 rfl,
   ((FilterStream_pagination ⟨[⟨1, "srcA", 5, 0, "x"⟩, ⟨2, "srcB", 7, 1, "y"⟩]⟩
      (fun _ => true) none none (fun _ => false)).2.2.1 (by decide)).2,
   (FilterStream_pagination ⟨[⟨1, "srcA", 5, 0, "x"⟩, ⟨2, "srcB", 7, 1, "y"⟩]⟩
      (fun _ => true) none none (fun k => k == 0)).2.2.2⟩

/-! ## Claim C10 -/

/-- With distinct row ids, at most `ids.length` rows can match an `IN`
list. -/
theorem filter_contains_length_le (s : Store) (ids : List Int)
    (hnodup : (s.rows.map (fun r => r.id)).Nodup) :
    (s.rows.filter (fun row => ids.contains row.id)).length ≤ ids.length := by
  have hsub : ((s.rows.filter (fun row => ids.contains row.id)).map
      (fun r => r.id)) ⊆ ids := by
    intro x hx
    rw [List.mem_map] at hx
    obtain ⟨row, hrow, hid⟩ := hx
    rw [List.mem_filter] at hrow
    subst hid
    exact List.elem_iff.mp hrow.2
  have hnd : ((s.rows.filter (fun row => ids.contains row.id)).map
      (fun r => r.id)).Nodup := by
    apply List.Nodup.sublist _ hnodup
    exact List.Sublist.map _ (List.filter_sublist _)
  have := (List.subperm_of_subset hnd hsub).length_le
  simpa using this

/-- C10, counterexample: on a store holding one row, `GetByIds` with the
empty id list returns the empty slice with no error — SQLite accepts the
generated `IN ()` form, whose empty list simply matches no row — contrary
to the claim that the call returns an error for a malformed query. -/
theorem GetByIds_empty_ids_no_error :
    GetByIds ⟨[⟨1, "srcA", 7, 0, "raw1"⟩]⟩ [] = Except.ok [] := rfl

/-- C10 (amended): `GetByIds` returns without error a slice of exactly
`ids.length` entries, whose prefix is the matching rows in database
row-retrieval order (the store's row order restricted to the requested
ids — not aligned with the positions of `ids`), and whose tail is
zero-valued entries for the identities that matched nothing; for the empty
id list the generated `IN ()` query is accepted by SQLite and matches no
row, so the call returns the empty slice with no error. -/
theorem GetByIds_shape (s : Store) (ids : List Int)
    (hnodup : (s.rows.map (fun r => r.id)).Nodup) :
    GetByIds s [] = Except.ok [] ∧
    ∃ r, GetByIds s ids = Except.ok r ∧
      r.length = ids.length ∧
      (s.rows.filter (fun row => ids.contains row.id)).length ≤ ids.length ∧
      r = (s.rows.filter (fun row => ids.contains row.id)).map
            (fun row => EventWithId.mk row.id row.source row.timestamp row.raw) ++
          List.replicate
            (ids.length - (s.rows.filter (fun row => ids.contains row.id)).length)
            zeroEventWithId := by
  have hle := filter_contains_length_le s ids hnodup
  refine ⟨?_, ?_⟩
  · rw [GetByIds]
    simp
  · rw [GetByIds]
    refine ⟨_, rfl, ?_, hle, by simp⟩
    simp only [List.length_append, List.length_map, List.length_replicate]
    omega

/-- C10 witness: a store holding the row with id 1, queried for ids
`[5, 1]`, yields `[row 1, zero]` — filled from index 0 in retrieval order,
with the missing id's slot zero-valued at the tail — and queried with the
empty id list yields the empty slice with no error. -/
theorem GetByIds_shape_witness :
    GetByIds ⟨[⟨1, "srcA", 7, 0, "raw1"⟩]⟩ [] = Except.ok [] ∧
    ∃ r, GetByIds ⟨[⟨1, "srcA", 7, 0, "raw1"⟩]⟩ [5, 1] = Except.ok r ∧
      r.length = 2 ∧ r = [⟨1, "srcA", 7, "raw1"⟩, zeroEventWithId] := by
  obtain ⟨hemp, r, hok, hlen, _, hr⟩ :=
    GetByIds_shape ⟨[⟨1, "srcA", 7, 0, "raw1"⟩]⟩ [5, 1] (by decide)
  refine ⟨hemp, r, hok, by rw [hlen]; rfl, ?_⟩
  rw [hr]
  decide

/-! ## Claim C1 -/

theorem maxIdAcc_attained (rows : List StoreRow) (hne : rows ≠ [])
    (hpos : ∀ r ∈ rows, 1 ≤ r.id) : ∃ r ∈ rows, r.id = maxIdAcc rows := by
  induction rows with
  | nil => exact absurd rfl hne
  | cons a rest ih =>
      rw [maxIdAcc_cons]
      by_cases hr : rest = []
      · subst hr
        refine ⟨a, List.mem_cons_self _ _, ?_⟩
        have := hpos a (List.mem_cons_self _ _)
        have h0 : maxIdAcc ([] : List StoreRow) = 0 := rfl
        rw [h0]
        omega
      · obtain ⟨r, hrmem, hrid⟩ :=
          ih hr (fun r h => hpos r (List.mem_cons_of_mem _ h))
        by_cases hc : maxIdAcc rest ≤ a.id
        · exact ⟨a, List.mem_cons_self _ _, (max_eq_left hc).symm⟩
        · refine ⟨r, List.mem_cons_of_mem _ hrmem, ?_⟩
          rw [hrid]
          exact (max_eq_right (by omega)).symm

theorem timeOk_none_none (r : StoreRow) : timeOk none none r = true := rfl

/-- On a batch with no internal duplicate triples and no conflict with the
visible rows, `addPure` inserts every event, assigning the consecutive
identities that follow the current maximum. -/
theorem addPure_noDup_spec (base : List StoreRow) (evts : List Event) :
    ∀ (p : List StoreRow) (ids : List Int) (d : List (String × Int)),
      (∀ e ∈ evts, isDup (base ++ p) e = false) →
      evts.Pairwise (fun a b => ¬ sameTriple a b) →
      ∃ newRows,
        addPure base p ids d evts =
          ⟨p ++ newRows, ids ++ newRows.map (fun r => r.id), d⟩ ∧
        newRows.map (fun r => (r.source, r.timestamp, r.offset, r.raw)) =
          evts.map (fun e => (e.source, e.timestamp, e.offset, e.raw)) ∧
        newRows.map (fun r => r.id) =
          (List.range evts.length).map
            (fun (n : Nat) => maxIdAcc (base ++ p) + 1 + (n : Int)) := by
  induction evts with
  | nil =>
      intro p ids d _ _
      exact ⟨[], by simp [addPure], by simp, by simp⟩
  | cons e rest ih =>
      intro p ids d hnov hpair
      have hde : isDup (base ++ p) e = false := hnov e (List.mem_cons_self _ _)
      have hrow : ∀ e2 ∈ rest, isDup [(⟨newRowId (base ++ p), e.source,
          e.timestamp, e.offset, e.raw⟩ : StoreRow)] e2 = false := by
        intro e2 he2
        apply isDup_singleton_false
        intro hcon
        exact (List.pairwise_cons.mp hpair).1 e2 he2
          ⟨hcon.1, hcon.2.1, hcon.2.2⟩
      have hnov2 : ∀ e2 ∈ rest, isDup (base ++ (p ++ [⟨newRowId (base ++ p),
          e.source, e.timestamp, e.offset, e.raw⟩])) e2 = false := by
        intro e2 he2
        rw [← List.append_assoc, isDup_append,
          hnov e2 (List.mem_cons_of_mem _ he2), hrow e2 he2]
        rfl
      obtain ⟨newRows, h1, h2, h3⟩ :=
        ih (p ++ [⟨newRowId (base ++ p), e.source, e.timestamp, e.offset,
          e.raw⟩]) (ids ++ [newRowId (base ++ p)]) d hnov2
          (List.pairwise_cons.mp hpair).2
      refine ⟨⟨newRowId (base ++ p), e.source, e.timestamp, e.offset,
        e.raw⟩ :: newRows, ?_, ?_, ?_⟩
      · rw [addPure, if_neg (by rw [hde]; exact Bool.false_ne_true), h1]
        simp
      · simp only [List.map_cons, h2]
      · have hmax : maxIdAcc (base ++ (p ++ [(⟨newRowId (base ++ p), e.source,
            e.timestamp, e.offset, e.raw⟩ : StoreRow)])) =
            maxIdAcc (base ++ p) + 1 := by
          rw [← List.append_assoc, maxIdAcc_append]
          have h01 : maxIdAcc [(⟨newRowId (base ++ p), e.source, e.timestamp,
              e.offset, e.raw⟩ : StoreRow)] = max (newRowId (base ++ p)) 0 := rfl
          rw [h01]
          have hge := maxIdAcc_nonneg (base ++ p)
          unfold newRowId
          omega
        rw [hmax] at h3
        rw [List.map_cons, h3, List.length_cons, List.range_succ_eq_map,
          List.map_cons, List.map_map]
        congr 1
        · simp [newRowId]
        · apply List.map_congr_left
          intro n hn
          simp only [Function.comp_apply]
          push_cast
          ring

/-- C1, counterexample: after inserting a single event into the empty
store, `FilterStream` with no constraints delivers nothing at all: the
unconstrained call still pushes `AND EventRaws MATCH ''`, and the empty
FTS4 match expression matches no rows (`matchEmpty`); and even if the
`MATCH` clause accepted every row, the coarse query's strict bound
`e.id < MAX(id)` would still omit the event holding the snapshotted
maximum identity (here the only event of the batch).  Under either reading
the claim that no event of B is missing fails. -/
theorem FilterStream_omits_max_id_event :
    (AddBatch emptyStore [⟨"x", "h", "srcA", 0, 5⟩]).ids = some [1] ∧
    (AddBatch emptyStore [⟨"x", "h", "srcA", 0, 5⟩]).store.rows =
      [⟨1, "srcA", 5, 0, "x"⟩] ∧
    (FilterStream (AddBatch emptyStore [⟨"x", "h", "srcA", 0, 5⟩]).store
      matchEmpty none none).flatten = [] ∧
    (FilterStream (AddBatch emptyStore [⟨"x", "h", "srcA", 0, 5⟩]).store
      (fun _ => true) none none).flatten = [] := by
  refine ⟨?_, ?_, ?_, ?_⟩ <;> decide

/-- C1 (amended): on a batch with no internal duplicates and no conflicts,
`AddBatch` returns `len(B)` freshly assigned, strictly increasing
identities and appends matching rows to the store — but a subsequent
`FilterStream` with no source, fragment or time constraints delivers no
events at all: the unconstrained call still pushes `AND EventRaws MATCH ''`
on every page query, and the empty FTS4 match expression matches no rows
(`matchEmpty`).  Moreover, however the `MATCH` clause evaluates (any row
predicate), the stream delivers, in reverse-chronological order, exactly
the accepted rows strictly below the snapshotted maximum identity, so the
event holding that maximum identity is never delivered; under an
accept-all predicate it is the sole omission. -/
theorem AddBatch_then_FilterStream_below_snapshot (s : Store) (B : List Event)
    (hwf : StoreWf s)
    (hB : B.Pairwise (fun a b => ¬ sameTriple a b))
    (hconf : ∀ e ∈ B, isDup s.rows e = false) :
    ∃ (l : List Int) (newRows : List StoreRow),
      (AddBatch s B).err = none ∧
      (AddBatch s B).ids = some l ∧
      (AddBatch s B).store.rows = s.rows ++ newRows ∧
      l.length = B.length ∧
      l.Chain' (· < ·) ∧
      (∀ id ∈ l, ∀ r ∈ s.rows, r.id < id) ∧
      newRows.map (fun r => (r.source, r.timestamp, r.offset, r.raw)) =
        B.map (fun e => (e.source, e.timestamp, e.offset, e.raw)) ∧
      newRows.map (fun r => r.id) = l ∧
      StoreWf (AddBatch s B).store ∧
      ((FilterStream (AddBatch s B).store matchEmpty none
          none).flatten = [] ∧
        (∀ matchPred : StoreRow → Bool,
          (FilterStream (AddBatch s B).store matchPred none
            none).flatten.Pairwise revChron ∧
          (FilterStream (AddBatch s B).store matchPred none
            none).flatten.Perm ((s.rows ++ newRows).filter
              (fun r => decide (r.id < maxIdAcc (s.rows ++ newRows)) &&
                matchPred r)) ∧
          (∀ r ∈ s.rows ++ newRows, r.id = maxIdAcc (s.rows ++ newRows) →
            r ∉ (FilterStream (AddBatch s B).store matchPred none
              none).flatten)) ∧
        (∀ r ∈ s.rows ++ newRows,
          r ∉ (FilterStream (AddBatch s B).store (fun _ => true) none
            none).flatten → r.id = maxIdAcc (s.rows ++ newRows)) ∧
        (B ≠ [] → ∃ r ∈ s.rows ++ newRows,
          r.id = maxIdAcc (s.rows ++ newRows) ∧
          ∀ matchPred : StoreRow → Bool,
            r ∉ (FilterStream (AddBatch s B).store matchPred none
              none).flatten)) := by
  have hrun : AddBatch s B = ⟨none, some (addPure s.rows [] [] [] B).ids,
      ⟨s.rows ++ (addPure s.rows [] [] [] B).pending⟩, TxEnd.committed,
      (addPure s.rows [] [] [] B).dups⟩ := by
    unfold AddBatch AddBatchFull
    rw [if_neg Bool.false_ne_true, addLoop_noFail B s.rows 0 [] [] []]
    rfl
  obtain ⟨newRows, heq, htrip, hidseq⟩ :=
    addPure_noDup_spec s.rows B [] [] []
      (by intro e he; rw [List.append_nil]; exact hconf e he) hB
  simp only [List.append_nil] at hidseq
  have hids : (addPure s.rows [] [] [] B).ids =
      newRows.map (fun r => r.id) := by
    rw [heq]
    simp
  have hpend : (addPure s.rows [] [] [] B).pending = newRows := by
    rw [heq]
    simp
  have hlenN : newRows.length = B.length := by
    have := congrArg List.length htrip
    simpa using this
  have hrows : (AddBatch s B).store.rows = s.rows ++ newRows := by
    rw [hrun]
    show s.rows ++ (addPure s.rows [] [] [] B).pending = s.rows ++ newRows
    rw [hpend]
  have hl_mem : ∀ id ∈ newRows.map (fun r => r.id),
      ∃ n : Nat, n < B.length ∧ id = maxIdAcc s.rows + 1 + n := by
    intro id hid
    rw [hidseq] at hid
    obtain ⟨n, hn, hne⟩ := List.mem_map.mp hid
    exact ⟨n, List.mem_range.mp hn, hne.symm⟩
  have hfresh : ∀ id ∈ newRows.map (fun r => r.id), ∀ r ∈ s.rows,
      r.id < id := by
    intro id hid r hr
    obtain ⟨n, _, rfl⟩ := hl_mem id hid
    have h1 := le_maxIdAcc_of_mem hr
    have h2 : (0 : Int) ≤ n := Int.natCast_nonneg n
    omega
  have hchain : (newRows.map (fun r => r.id)).Chain' (· < ·) := by
    rw [List.chain'_iff_pairwise, hidseq, List.pairwise_map]
    apply List.Pairwise.imp ?_ (List.pairwise_lt_range B.length)
    intro a b h
    omega
  have hpos_new : ∀ r ∈ newRows, 1 ≤ r.id := by
    intro r hr
    obtain ⟨n, _, hid⟩ := hl_mem r.id (List.mem_map_of_mem _ hr)
    have h1 := maxIdAcc_nonneg s.rows
    have h2 : (0 : Int) ≤ n := Int.natCast_nonneg n
    omega
  have hwf2 : StoreWf (AddBatch s B).store := by
    constructor
    · rw [hrows, List.map_append, List.chain'_iff_pairwise,
        List.pairwise_append]
      refine ⟨List.chain'_iff_pairwise.mp hwf.1,
        List.chain'_iff_pairwise.mp hchain, ?_⟩
      intro x hx y hy
      obtain ⟨r, hr, rfl⟩ := List.mem_map.mp hx
      exact hfresh y hy r hr
    · rw [hrows]
      intro r hr
      rcases List.mem_append.mp hr with h | h
      · exact hwf.2 r h
      · exact hpos_new r h
  refine ⟨newRows.map (fun r => r.id), newRows, by rw [hrun],
    by rw [hrun]; show some (addPure s.rows [] [] [] B).ids = _; rw [hids],
    hrows, by simp [hlenN], hchain,
    hfresh, htrip, rfl, hwf2, ?_⟩
  by_cases hrows_nil : s.rows ++ newRows = []
  · have hBnil : B = [] := by
      have h1 : newRows = [] := (List.append_eq_nil.mp hrows_nil).2
      rw [h1] at hlenN
      exact (List.length_eq_zero.mp hlenN.symm)
    have hstream : ∀ mp : StoreRow → Bool,
        FilterStream (AddBatch s B).store mp none none = [] := by
      intro mp
      unfold FilterStream FilterStreamFull
      have h0 : maxIdOpt (AddBatch s B).store = none := by
        unfold maxIdOpt
        rw [if_pos (by rw [hrows, hrows_nil]; rfl)]
      rw [h0]
    refine ⟨by rw [hstream matchEmpty]; rfl, ?_, ?_, ?_⟩
    · intro mp
      rw [hstream mp]
      refine ⟨by simp, ?_, ?_⟩
      · obtain ⟨h1, h2⟩ := List.append_eq_nil.mp hrows_nil
        simp [h1, h2]
      · intro r hrmem
        rw [hrows_nil] at hrmem
        cases hrmem
    · intro r hrmem
      rw [hrows_nil] at hrmem
      cases hrmem
    · intro hBne
      exact absurd hBnil hBne
  · have hmx : maxIdOpt (AddBatch s B).store =
        some (maxIdAcc (s.rows ++ newRows)) := by
      unfold maxIdOpt
      rw [if_neg (by rw [hrows]; simpa [List.isEmpty_iff] using hrows_nil),
        hrows]
    have hstream_eq : ∀ mp : StoreRow → Bool,
        (FilterStream (AddBatch s B).store mp none
          none).flatten = List.insertionSort rowLe ((s.rows ++ newRows).filter
            (fun r => decide (r.id < maxIdAcc (s.rows ++ newRows)) &&
              mp r)) := by
      intro mp
      unfold FilterStream FilterStreamFull
      rw [hmx]
      rw [pageLoop_noFail_join]
      unfold coarseRows
      rw [hrows]
      congr 1
      apply List.filter_congr
      intro r _
      simp [timeOk]
    have hnd_rows : ((s.rows ++ newRows).map (fun r => r.id)).Nodup := by
      have h1 := hwf2.1
      rw [hrows] at h1
      rw [List.chain'_iff_pairwise] at h1
      exact h1.imp (fun h => ne_of_lt h)
    have hnever : ∀ (mp : StoreRow → Bool), ∀ r ∈ s.rows ++ newRows,
        r.id = maxIdAcc (s.rows ++ newRows) →
        r ∉ (FilterStream (AddBatch s B).store mp none none).flatten := by
      intro mp r hrmem hrid hmem
      rw [hstream_eq mp, (List.perm_insertionSort _ _).mem_iff,
        List.mem_filter] at hmem
      have h2 := hmem.2
      rw [Bool.and_eq_true] at h2
      have h3 := h2.1
      simp only [decide_eq_true_eq] at h3
      omega
    refine ⟨?_, ?_, ?_, ?_⟩
    · rw [hstream_eq matchEmpty]
      have hfe : (s.rows ++ newRows).filter
          (fun r => decide (r.id < maxIdAcc (s.rows ++ newRows)) &&
            matchEmpty r) = [] := by
        simp [matchEmpty]
      rw [hfe]
      rfl
    · intro mp
      have hperm : (List.insertionSort rowLe ((s.rows ++ newRows).filter
          (fun r => decide (r.id < maxIdAcc (s.rows ++ newRows)) &&
            mp r))).Perm
            ((s.rows ++ newRows).filter
              (fun r => decide (r.id < maxIdAcc (s.rows ++ newRows)) &&
                mp r)) :=
        List.perm_insertionSort _ _
      refine ⟨?_, ?_, hnever mp⟩
      · rw [hstream_eq mp]
        have hsorted := List.sorted_insertionSort rowLe
          ((s.rows ++ newRows).filter
            (fun r => decide (r.id < maxIdAcc (s.rows ++ newRows)) && mp r))
        have hnd_filter : (((s.rows ++ newRows).filter
            (fun r => decide (r.id < maxIdAcc (s.rows ++ newRows)) &&
              mp r)).map
              (fun r => r.id)).Nodup :=
          ((List.filter_sublist _).map _).nodup hnd_rows
        have hnd_sort := ((hperm.map (fun r => r.id)).nodup_iff).mpr hnd_filter
        have hpne := List.pairwise_map.mp hnd_sort
        apply (hsorted.and hpne).imp
        intro a b hab
        obtain ⟨h1, h2⟩ := hab
        unfold rowLe at h1
        unfold revChron
        rcases h1 with h1 | ⟨h1a, h1b⟩
        · exact Or.inl h1
        · exact Or.inr ⟨h1a, lt_of_le_of_ne h1b (fun hh => h2 hh.symm)⟩
      · rw [hstream_eq mp]
        exact hperm
    · intro r hrmem hnot
      have hle := le_maxIdAcc_of_mem hrmem
      by_contra hneq
      have hlt : r.id < maxIdAcc (s.rows ++ newRows) :=
        lt_of_le_of_ne hle hneq
      apply hnot
      rw [hstream_eq (fun _ => true),
        (List.perm_insertionSort _ _).mem_iff, List.mem_filter]
      exact ⟨hrmem, by simp [hlt]⟩
    · intro hBne
      have hpos_all : ∀ r ∈ s.rows ++ newRows, 1 ≤ r.id := by
        rw [← hrows]
        exact hwf2.2
      obtain ⟨r, hrmem, hrid⟩ := maxIdAcc_attained _ hrows_nil hpos_all
      exact ⟨r, hrmem, hrid, fun mp => hnever mp r hrmem hrid⟩

/-- C1 witness: two fresh events inserted into the empty store receive the
identity slice `[1, 2]`, of the batch's length and strictly increasing. -/
theorem AddBatch_then_FilterStream_below_snapshot_witness :
    ∃ (l : List Int) (newRows : List StoreRow),
      (AddBatch emptyStore
        [⟨"a", "h", "srcA", 0, 5⟩, ⟨"b", "h", "srcB", 1, 9⟩]).ids = some l ∧
      l.length = 2 ∧ l.Chain' (· < ·) ∧
      newRows.map (fun r => r.id) = l := by
  obtain ⟨l, newRows, _, h2, _, h4, h5, _, _, h8, _⟩ :=
    AddBatch_then_FilterStream_below_snapshot emptyStore
      [⟨"a", "h", "srcA", 0, 5⟩, ⟨"b", "h", "srcB", 1, 9⟩]
      (by constructor <;> simp [emptyStore])
      (by decide)
      (by decide)
  exact ⟨l, newRows, h2, by rw [h4]; rfl, h5, h8⟩

end Logsuck

